import Mathlib

/-!
# Verification of the SafeUrl codec (safe-api, xorurl.rs)

Shallow embedding of `src/safe-api/src/api/app/xorurl.rs` into Lean 4.

Modelling conventions:
* Rust `String` / `&str` values are modelled as `List Char` (`Str` below).
* Byte buffers (`Vec<u8>`) are modelled as `List Nat` with entries `< 256`.
* Machine integers (`u64`, `u16`, `u8`) are modelled as `Nat`, with explicit
  range checks / `% 2^w` where the code relies on the width.
* Fallible functions return `Except Error _`.  Rust `&mut self` methods that
  can fail after mutating are modelled as `SafeUrl → args → SafeUrl × Option Error`
  (the returned `SafeUrl` is the post-state, mutations that happened before the
  error are preserved, exactly as with a Rust `&mut` receiver).
* External crates used by the file are modelled to their documented behaviour:
  `url`'s form-urlencoded query parsing/serialisation, `urlencoding`'s percent
  encoding, `multibase`'s base32z/base32/base64 codecs, and `tiny_keccak`'s
  sha3_256.  In the percent codecs, characters with code points `≥ 256` are
  passed through verbatim (the byte-level UTF-8 expansion of the crates is not
  modelled; all claim-relevant behaviour is over Latin-1/ASCII text).
-/

set_option maxRecDepth 20000

/-- Strings are modelled as lists of characters. -/
abbrev Str := List Char

/-! ## Generic string utilities -/

/-- Split a list at every occurrence of `c` (model of Rust `str::split`).
`splitOnAux c s acc` processes `s` with `acc` holding the (reversed) current piece. -/
def splitOnAux (c : Char) : Str → Str → List Str
  | [], acc => [acc.reverse]
  | x :: xs, acc =>
    if x = c then acc.reverse :: splitOnAux c xs []
    else splitOnAux c xs (x :: acc)

/-- Split a string on a separator character; always returns at least one piece. -/
def splitOnChar (c : Char) (s : Str) : List Str := splitOnAux c s []

/-- Join pieces with a separator string (model of Rust `[String]::join`). -/
def joinWith (sep : Str) : List Str → Str
  | [] => []
  | [x] => x
  | x :: y :: xs => x ++ sep ++ joinWith sep (y :: xs)

/-- Does `s` start with `p`? -/
def startsWithStr : Str → Str → Bool
  | _, [] => true
  | [], _ :: _ => false
  | c :: s, p0 :: p => c = p0 && startsWithStr s p

/-- Does `sub` occur as a contiguous substring of `s` (model of `str::find(..).is_some()`)? -/
def containsSub (s sub : Str) : Bool :=
  match s with
  | [] => startsWithStr [] sub
  | _ :: rest => startsWithStr s sub || containsSub rest sub

/-! ## Hex digits and percent / form-urlencoded codecs (models of the
`urlencoding` crate and of `url`'s form-urlencoded machinery) -/

/-- Uppercase hex digit for `n < 16`. -/
def hexDigitChar (n : Nat) : Char :=
  if n < 10 then Char.ofNat ('0'.toNat + n) else Char.ofNat ('A'.toNat + n - 10)

/-- Value of a hex digit character (either case accepted). -/
def hexVal? (c : Char) : Option Nat :=
  if '0' ≤ c ∧ c ≤ '9' then some (c.toNat - '0'.toNat)
  else if 'a' ≤ c ∧ c ≤ 'f' then some (c.toNat - 'a'.toNat + 10)
  else if 'A' ≤ c ∧ c ≤ 'F' then some (c.toNat - 'A'.toNat + 10)
  else none

/-- RFC 3986 unreserved characters (kept verbatim by `urlencoding::encode`). -/
def isUnreservedChar (c : Char) : Bool :=
  c.isAlphanum || c = '-' || c = '_' || c = '.' || c = '~'

/-- Percent-encode one character (model of `urlencoding::encode`, byte-level
behaviour restricted to Latin-1; code points `≥ 256` pass through verbatim). -/
def urlPercentEncodeChar (c : Char) : Str :=
  if isUnreservedChar c then [c]
  else if c.toNat < 256 then
    ['%', hexDigitChar (c.toNat / 16), hexDigitChar (c.toNat % 16)]
  else [c]

/-- Model of `SafeUrl::url_percent_encode` / `urlencoding::encode`. -/
def urlPercentEncode (s : Str) : Str := (s.map urlPercentEncodeChar).flatten

/-- Characters kept verbatim by the `url` crate's form-urlencoded serialiser
(alphanumerics and `*-._`). -/
def isFormSafeChar (c : Char) : Bool :=
  c.isAlphanum || c = '*' || c = '-' || c = '.' || c = '_'

/-- Form-urlencode one character (model of `url::form_urlencoded`'s serialiser:
space becomes `+`, form-safe bytes pass, other Latin-1 bytes become `%XX`). -/
def formUrlEncodeChar (c : Char) : Str :=
  if c = ' ' then ['+']
  else if isFormSafeChar c then [c]
  else if c.toNat < 256 then
    ['%', hexDigitChar (c.toNat / 16), hexDigitChar (c.toNat % 16)]
  else [c]

/-- Form-urlencode a string. -/
def formUrlEncode (s : Str) : Str := (s.map formUrlEncodeChar).flatten

/-- Scanner state for form-urldecoding: nothing pending, a pending `%`, or a
pending `%` plus one valid hex digit. -/
inductive FdState where
  | norm : FdState
  | pct : FdState
  | pctHex : Char → FdState
deriving DecidableEq

/-- Literal flush of a pending partial percent sequence at end of input. -/
def flushFd : FdState → Str
  | .norm => []
  | .pct => ['%']
  | .pctHex h1 => ['%', h1]

/-- One-character-at-a-time form-urldecoder (structurally recursive scanner).
`+` becomes space, `%XX` becomes the Latin-1 character `XX`, and a `%` not
followed by two hex digits is passed through verbatim (scanning resumes at the
character after the literal `%`). -/
def fdStep : FdState → Str → Str
  | st, [] => flushFd st
  | .norm, c :: rest =>
    if c = '%' then fdStep .pct rest
    else if c = '+' then ' ' :: fdStep .norm rest
    else c :: fdStep .norm rest
  | .pct, c :: rest =>
    match hexVal? c with
    | some _ => fdStep (.pctHex c) rest
    | none =>
      if c = '%' then '%' :: fdStep .pct rest
      else if c = '+' then '%' :: ' ' :: fdStep .norm rest
      else '%' :: c :: fdStep .norm rest
  | .pctHex h1, c :: rest =>
    match hexVal? h1, hexVal? c with
    | some a, some b => Char.ofNat (16 * a + b) :: fdStep .norm rest
    | _, _ =>
      '%' :: h1 ::
        (if c = '%' then fdStep .pct rest
         else if c = '+' then ' ' :: fdStep .norm rest
         else c :: fdStep .norm rest)

/-- Form-urldecode a string (model of `url::form_urlencoded`'s parser). -/
def formUrlDecode (s : Str) : Str := fdStep .norm s

/-! ## Query-pair machinery (model of the `url` crate's `query_pairs`,
`query_pairs_mut` and the private helpers in xorurl.rs built on them) -/

/-- Split a query piece at the first `=`: key before, value after (empty if none). -/
def splitFirstEq : Str → Str × Str
  | [] => ([], [])
  | c :: rest =>
    if c = '=' then ([], rest)
    else
      let kv := splitFirstEq rest
      (c :: kv.1, kv.2)

/-- Decoded key/value pairs of a query string (model of
`SafeUrl::query_pairs_internal`: split on `&`, skip empty pieces, split each at
the first `=`, form-urldecode both sides). -/
def parsePairs (q : Str) : List (Str × Str) :=
  (splitOnChar '&' q).filterMap fun piece =>
    if piece = [] then none
    else
      let kv := splitFirstEq piece
      some (formUrlDecode kv.1, formUrlDecode kv.2)

/-- Serialise one pair as `key=value`, form-urlencoded. -/
def serializePair (p : Str × Str) : Str := formUrlEncode p.1 ++ '=' :: formUrlEncode p.2

/-- Serialise a pair list as a query string (model of `url`'s
`query_pairs_mut` serialiser: pairs joined by `&`, empty list gives the empty
string). -/
def serializePairs (l : List (Str × Str)) : Str := joinWith ['&'] (l.map serializePair)

/-- Model of `SafeUrl::query_key_internal`: all decoded values for `key`. -/
def query_key_internal (q key : Str) : List Str :=
  (parsePairs q).filterMap fun p => if p.1 = key then some p.2 else none

/-- Model of `SafeUrl::query_key_last_internal`. -/
def query_key_last_internal (q key : Str) : Option Str :=
  (query_key_internal q key).getLast?

/-- Model of `SafeUrl::query_key_first_internal`. -/
def query_key_first_internal (q key : Str) : Option Str :=
  (query_key_internal q key).head?

/-- The pair-list transformation performed by the loop in
`SafeUrl::set_query_key` (lines 707–725): every pair is re-appended, except
that occurrences of `key` are collapsed into a single `(key, v)` at the first
occurrence (when `val = some v`) or dropped (when `val = none`); if `key` never
occurred and `val = some v`, `(key, v)` is appended at the end. -/
def applySetKeyAux (key : Str) (val : Option Str) : List (Str × Str) → Bool → List (Str × Str)
  | [], set_key =>
    if set_key then []
    else
      match val with
      | some v => [(key, v)]
      | none => []
  | (k, v0) :: rest, set_key =>
    if k = key then
      match val with
      | some v =>
        if set_key then applySetKeyAux key val rest set_key
        else (key, v) :: applySetKeyAux key val rest true
      | none => applySetKeyAux key val rest set_key
    else (k, v0) :: applySetKeyAux key val rest set_key

/-- Entry point of the `set_query_key` pair rewrite. -/
def applySetKey (pairs : List (Str × Str)) (key : Str) (val : Option Str) :
    List (Str × Str) :=
  applySetKeyAux key val pairs false

/-! ## Decimal numbers: `u64` parsing (Rust `str::parse::<u64>`) and display -/

/-- Model of Rust `str::parse::<u64>()`: an optional leading `+`, then one or
more ASCII digits, value below `2^64` (overflow fails). -/
def parseU64? (s : Str) : Option Nat :=
  let t : Str := if s.head? = some '+' then s.tail else s
  if t = [] then none
  else if t.all Char.isDigit then
    let n := t.foldl (fun acc c => acc * 10 + (c.toNat - '0'.toNat)) 0
    if n < 2 ^ 64 then some n else none
  else none

/-- Decimal digit character for `d < 10`. -/
def digitCharOf (d : Nat) : Char := Char.ofNat ('0'.toNat + d)

/-- Fuel-driven little-endian digits (structurally recursive so the kernel can
evaluate it; agrees with `Nat.digits` when the fuel suffices). -/
def digitsAux (b : Nat) : Nat → Nat → List Nat
  | 0, _ => []
  | fuel + 1, n => if n = 0 then [] else n % b :: digitsAux b fuel (n / b)

/-- Little-endian digits of `n` in base `b` (executable `Nat.digits`). -/
def natDigits (b n : Nat) : List Nat := digitsAux b n n

/-- Decimal rendering of a natural number (model of Rust `u64::to_string`). -/
def natToStr (n : Nat) : Str :=
  if n = 0 then ['0'] else ((natDigits 10 n).map digitCharOf).reverse

/-! ## Base-N codecs (model of the `multibase` crate, version as used by the
repository, for the three bases the code selects: base32z prefix `h`, base32
prefix `b`, base64 prefix `m`).  That multibase version performs big-integer
(base-x style) conversion — the byte string is read as a big-endian integer
whose digits in the target base are emitted, with one leading `alphabet[0]`
character per leading zero byte — as witnessed by the repository's own test
fixtures.  The real crate auto-detects every multibase prefix when decoding;
this model supports the three alphabets the encoder can emit. -/

/-- Index of a character in an alphabet. -/
def idxOfChar : Str → Char → Option Nat
  | [], _ => none
  | a :: rest, c => if a = c then some 0 else (idxOfChar rest c).map (· + 1)

/-- z-base-32 alphabet. -/
def BASE32Z_ALPHABET : Str := "ybndrfg8ejkmcpqxot1uwisza345h769".toList

/-- base32 alphabet, lowercase (multibase `b`). -/
def BASE32_ALPHABET : Str := "abcdefghijklmnopqrstuvwxyz234567".toList

/-- base64 alphabet (multibase `m`). -/
def BASE64_ALPHABET : Str :=
  "ABCDEFGHIJKLMNOPQRSTUVWXYZabcdefghijklmnopqrstuvwxyz0123456789+/".toList

/-- Big-endian integer value of a byte string. -/
def bytesVal (bs : List Nat) : Nat := bs.foldl (fun acc b => acc * 256 + b) 0

/-- Minimal big-endian byte string of a natural number (empty for 0). -/
def natToBytesBE (n : Nat) : List Nat := (natDigits 256 n).reverse

/-- Big-endian digits of `n` in base `b` (empty for 0). -/
def digitsBE (b n : Nat) : List Nat := (natDigits b n).reverse

/-- Base-x encode: one `alphabet[0]` per leading zero byte, then the base-`B`
digits of the value of the byte string. -/
def encodeBaseX (alpha : Str) (bytes : List Nat) : Str :=
  let z := (bytes.takeWhile (· = 0)).length
  List.replicate z (alpha.getD 0 ' ') ++
    (digitsBE alpha.length (bytesVal bytes)).map fun d => alpha.getD d ' '

/-- Base-x decode: every character must be in the alphabet; leading
`alphabet[0]` characters become zero bytes, the rest is read as a big-endian
integer. -/
def decodeBaseX (alpha : Str) (s : Str) : Option (List Nat) :=
  match s.mapM (idxOfChar alpha) with
  | none => none
  | some idxs =>
    let z := (idxs.takeWhile (· = 0)).length
    let n := idxs.foldl (fun acc d => acc * alpha.length + d) 0
    some (List.replicate z 0 ++ natToBytesBE n)

/-- Supported base encodings for XOR URLs (model of `XorUrlBase`). -/
inductive XorUrlBase where
  | Base32z : XorUrlBase
  | Base32 : XorUrlBase
  | Base64 : XorUrlBase
deriving DecidableEq

/-- Model of `multibase::encode` for the three bases used by the code. -/
def multibaseEncode (base : XorUrlBase) (bytes : List Nat) : Str :=
  match base with
  | .Base32z => 'h' :: encodeBaseX BASE32Z_ALPHABET bytes
  | .Base32 => 'b' :: encodeBaseX BASE32_ALPHABET bytes
  | .Base64 => 'm' :: encodeBaseX BASE64_ALPHABET bytes

/-- Model of `multibase::decode` (for the three supported prefixes). -/
def multibaseDecode (s : Str) : Option (List Nat) :=
  match s with
  | 'h' :: rest => decodeBaseX BASE32Z_ALPHABET rest
  | 'b' :: rest => decodeBaseX BASE32_ALPHABET rest
  | 'm' :: rest => decodeBaseX BASE64_ALPHABET rest
  | _ => none

/-! ## SHA3-256 (model of `tiny_keccak::sha3_256`) -/

/-- 64-bit mask. -/
def mask64 : Nat := 0xFFFFFFFFFFFFFFFF

/-- 64-bit rotate left. -/
def rotl64 (x r : Nat) : Nat := ((x <<< r) ||| (x >>> (64 - r))) &&& mask64

/-- Lane accessor for a 25-lane Keccak state. -/
def lane (s : List Nat) (i : Nat) : Nat := s.getD i 0

/-- Keccak rotation offsets, indexed by lane `x + 5*y`. -/
def keccakRotc : List Nat :=
  [0, 1, 62, 28, 27, 36, 44, 6, 55, 20, 3, 10, 43] ++
    [25, 39, 41, 45, 15, 21, 8, 18, 2, 61, 56, 14]

/-- Keccak round constants. -/
def keccakRC : List Nat :=
  [1, 32898, 9223372036854808714,
   9223372039002292224, 32907, 2147483649,
   9223372039002292353, 9223372036854808585, 138,
   136, 2147516425, 2147483658,
   2147516555, 9223372036854775947, 9223372036854808713,
   9223372036854808579, 9223372036854808578, 9223372036854775936,
   32778, 9223372039002259466, 9223372039002292353,
   9223372036854808704, 2147483649, 9223372039002292232]

/-- Keccak theta step. -/
def kTheta (s : List Nat) : List Nat :=
  let c := (List.range 5).map fun x =>
    lane s x ^^^ lane s (x + 5) ^^^ lane s (x + 10) ^^^ lane s (x + 15) ^^^ lane s (x + 20)
  let d := (List.range 5).map fun x =>
    (c.getD ((x + 4) % 5) 0) ^^^ rotl64 (c.getD ((x + 1) % 5) 0) 1
  (List.range 25).map fun i => lane s i ^^^ d.getD (i % 5) 0

/-- Keccak rho and pi steps combined: destination lane `X + 5*Y` takes the
rotated source lane `(X + 3*Y) % 5 + 5*X`. -/
def kRhoPi (s : List Nat) : List Nat :=
  (List.range 25).map fun j =>
    let X := j % 5
    let Y := j / 5
    let si := (X + 3 * Y) % 5 + 5 * X
    rotl64 (lane s si) (keccakRotc.getD si 0)

/-- Keccak chi step. -/
def kChi (b : List Nat) : List Nat :=
  (List.range 25).map fun j =>
    let X := j % 5
    let Y := j / 5
    lane b j ^^^ ((lane b ((X + 1) % 5 + 5 * Y) ^^^ mask64) &&& lane b ((X + 2) % 5 + 5 * Y))

/-- One Keccak round. -/
def keccakRound (s : List Nat) (rc : Nat) : List Nat :=
  match kChi (kRhoPi (kTheta s)) with
  | a :: rest => (a ^^^ rc) :: rest
  | [] => []

/-- The Keccak-f[1600] permutation. -/
def keccakF (s : List Nat) : List Nat := keccakRC.foldl keccakRound s

/-- Little-endian 64-bit lane from up to 8 bytes. -/
def laneOfBytes (bs : List Nat) : Nat := bs.foldr (fun b acc => b + 256 * acc) 0

/-- The 17 rate lanes of a 136-byte block. -/
def blockLanes (block : List Nat) : List Nat :=
  (List.range 17).map fun i => laneOfBytes ((block.drop (8 * i)).take 8)

/-- Absorb one 136-byte block. -/
def absorbBlock (st : List Nat) (block : List Nat) : List Nat :=
  let bl := blockLanes block
  keccakF ((List.range 25).map fun i => lane st i ^^^ bl.getD i 0)

/-- SHA3 multi-rate padding for a message of length `len` (rate 136): `0x06`,
zeros, final byte ORed with `0x80`. -/
def sha3Pad (len : Nat) : List Nat :=
  let q := 136 - len % 136
  if q = 1 then [0x86] else 0x06 :: List.replicate (q - 2) 0 ++ [0x80]

/-- Split a byte string into 136-byte blocks (fuel-driven so the kernel can
evaluate it; `l.length` blocks amply suffice). -/
def splitBlocksFuel : Nat → List Nat → List (List Nat)
  | 0, _ => []
  | fuel + 1, l => if l = [] then [] else l.take 136 :: splitBlocksFuel fuel (l.drop 136)

/-- Split a byte string into 136-byte blocks. -/
def splitBlocks (l : List Nat) : List (List Nat) := splitBlocksFuel (l.length + 1) l

/-- First `n` bytes of the squeezed state, little-endian per lane. -/
def lanesToBytes (st : List Nat) (n : Nat) : List Nat :=
  (List.range n).map fun i => (lane st (i / 8) >>> (8 * (i % 8))) &&& 255

/-- SHA3-256 of a byte string (model of `tiny_keccak::sha3_256`). -/
def sha3_256 (msg : List Nat) : List Nat :=
  let padded := msg ++ sha3Pad msg.length
  let st := (splitBlocks padded).foldl absorbBlock (List.replicate 25 0)
  lanesToBytes st 32

/-- UTF-8 bytes of one character. -/
def utf8EncodeChar (c : Char) : List Nat :=
  let n := c.toNat
  if n < 0x80 then [n]
  else if n < 0x800 then [0xC0 ||| (n >>> 6), 0x80 ||| (n &&& 0x3F)]
  else if n < 0x10000 then
    [0xE0 ||| (n >>> 12), 0x80 ||| ((n >>> 6) &&& 0x3F), 0x80 ||| (n &&& 0x3F)]
  else
    [0xF0 ||| (n >>> 18), 0x80 ||| ((n >>> 12) &&& 0x3F),
     0x80 ||| ((n >>> 6) &&& 0x3F), 0x80 ||| (n &&& 0x3F)]

/-- UTF-8 bytes of a string (model of Rust `String::into_bytes`). -/
def utf8Encode (s : Str) : List Nat := (s.map utf8EncodeChar).flatten

/-! ## Data model: errors, data types, content types, media registry -/

/-- Model of the crate `Error` variants used by xorurl.rs. -/
inductive Error where
  | InvalidXorUrl : Str → Error
  | InvalidInput : Str → Error
  | InvalidMediaType : Str → Error
  | Unexpected : Str → Error
deriving DecidableEq

instance {ε α : Type _} [DecidableEq ε] [DecidableEq α] : DecidableEq (Except ε α) := fun x y =>
  match x, y with
  | .ok a, .ok b =>
    if h : a = b then isTrue (by rw [h]) else isFalse (by intro he; cases he; exact h rfl)
  | .error e, .error f =>
    if h : e = f then isTrue (by rw [h]) else isFalse (by intro he; cases he; exact h rfl)
  | .ok _, .error _ => isFalse nofun
  | .error _, .ok _ => isFalse nofun

/-- Model of `SafeDataType` (9 variants, discriminants 0–8). -/
inductive SafeDataType where
  | SafeKey : SafeDataType
  | PublishedImmutableData : SafeDataType
  | UnpublishedImmutableData : SafeDataType
  | SeqMutableData : SafeDataType
  | UnseqMutableData : SafeDataType
  | PublishedSeqAppendOnlyData : SafeDataType
  | PublishedUnseqAppendOnlyData : SafeDataType
  | UnpublishedSeqAppendOnlyData : SafeDataType
  | UnpublishedUnseqAppendOnlyData : SafeDataType
deriving DecidableEq

/-- Discriminant of a `SafeDataType` (the Rust `as u8` cast). -/
def dataTypeCode : SafeDataType → Nat
  | .SafeKey => 0
  | .PublishedImmutableData => 1
  | .UnpublishedImmutableData => 2
  | .SeqMutableData => 3
  | .UnseqMutableData => 4
  | .PublishedSeqAppendOnlyData => 5
  | .PublishedUnseqAppendOnlyData => 6
  | .UnpublishedSeqAppendOnlyData => 7
  | .UnpublishedUnseqAppendOnlyData => 8

/-- The data-type match in `SafeUrl::from_xorurl` (byte 3). -/
def dataTypeFromCode : Nat → Option SafeDataType
  | 0 => some .SafeKey
  | 1 => some .PublishedImmutableData
  | 2 => some .UnpublishedImmutableData
  | 3 => some .SeqMutableData
  | 4 => some .UnseqMutableData
  | 5 => some .PublishedSeqAppendOnlyData
  | 6 => some .PublishedUnseqAppendOnlyData
  | 7 => some .UnpublishedSeqAppendOnlyData
  | 8 => some .UnpublishedUnseqAppendOnlyData
  | _ => none

/-- Model of `SafeContentType`. -/
inductive SafeContentType where
  | Raw : SafeContentType
  | Wallet : SafeContentType
  | FilesContainer : SafeContentType
  | NrsMapContainer : SafeContentType
  | MediaType : Str → SafeContentType
deriving DecidableEq

/-- Modelled from the spec: the static media-type registry
(`xorurl_media_types.rs`, not under src/) — "a static bidirectional mapping
between media-type strings and small numeric codes".  A representative table;
codes are distinct and do not collide with the fixed codes 0–3. -/
def MEDIA_TYPE_CODES : List (Str × Nat) :=
  [("text/plain".toList, 0x8000),
   ("text/html".toList, 0x8005),
   ("image/png".toList, 0x8013),
   ("application/json".toList, 0x8021),
   ("application/octet-stream".toList, 0x8022)]

/-- Forward registry lookup (string to code). -/
def mediaCodeOf (m : Str) : Option Nat :=
  (MEDIA_TYPE_CODES.find? fun p => p.1 = m).map Prod.snd

/-- Reverse registry lookup (code to string), model of `MEDIA_TYPE_STR`. -/
def mediaStrOf (code : Nat) : Option Str :=
  (MEDIA_TYPE_CODES.find? fun p => p.2 = code).map Prod.fst

/-- Model of `SafeUrl::is_media_type_supported`. -/
def is_media_type_supported (media_type : Str) : Bool := (mediaCodeOf media_type).isSome

/-- The content-type match in `SafeUrl::from_xorurl` (bytes 1–2, big endian). -/
def contentTypeFromCode (code : Nat) : Except Error SafeContentType :=
  if code = 0 then .ok .Raw
  else if code = 1 then .ok .Wallet
  else if code = 2 then .ok .FilesContainer
  else if code = 3 then .ok .NrsMapContainer
  else
    match mediaStrOf code with
    | some m => .ok (.MediaType m)
    | none =>
      .error (.InvalidXorUrl
        ("Invalid content type encoded in the XOR-URL string: ".toList ++ natToStr code))

/-- The content-type encoding match in `SafeUrl::host_to_base` (also the body
of `SafeContentType::value`). -/
def contentTypeCode (ct : SafeContentType) : Except Error Nat :=
  match ct with
  | .Raw => .ok 0
  | .Wallet => .ok 1
  | .FilesContainer => .ok 2
  | .NrsMapContainer => .ok 3
  | .MediaType m =>
    match mediaCodeOf m with
    | some c => .ok c
    | none => .error (.Unexpected ("Failed to encode Media-type ".toList ++ m))

/-- Modelled from the spec: the fixed NRS map type tag (`NRS_MAP_TYPE_TAG`,
defined in the nrs module, not under src/; the value 1500 is confirmed by the
repository's nrs/xor fixture in `test_safeurl_to_string`). -/
def NRS_MAP_TYPE_TAG : Nat := 1500

/-- Modelled from the spec: the default XOR-URL base encoding
(`DEFAULT_XORURL_BASE`, defined outside src/; base32z per the repository's
`test_safeurl_default_base_encoding`). -/
def DEFAULT_XORURL_BASE : XorUrlBase := .Base32z

/-- Modelled from the spec: the textual rendering of a 32-byte locator hash by
the external `XorName` Display implementation, taken as full lowercase hex;
the exact format lives outside src/. -/
def xornameDisplayModel (x : List Nat) : Str :=
  (x.map fun b =>
    [("0123456789abcdef".toList).getD (b / 16) '0',
     ("0123456789abcdef".toList).getD (b % 16) '0']).flatten

/-- The reserved version query key (`URL_VERSION_QUERY_NAME`). -/
def URL_VERSION_QUERY_NAME : Str := ['v']

/-! ## URL parsing into parts (model of `SafeUrlParts::parse`).

The `url` crate's generic parser is modelled for the URL shapes this codec
emits and consumes: after the literal `safe://` scheme marker, the host runs
to the first `/`, `?` or `#`; a path starts at `/` and runs to `?` or `#`; a
query starts at `?` and runs to `#`; the fragment is the remainder.  The
model extracts these components verbatim (the crate's extra percent-escaping
of exotic characters is outside the model; all claims restrict to component
character sets on which the crate is verbatim as well). -/

/-- The parts of a parsed safe URL (model of `SafeUrlParts`). -/
structure SafeUrlParts where
  scheme : Str
  host : Str
  sub_names : List Str
  tld : Str
  path : Str
  query_string : Str
  fragment : Str
deriving DecidableEq

/-- Model of `SafeUrlParts::parse`. -/
def parseParts (url : Str) : Except Error SafeUrlParts :=
  if startsWithStr url ("safe://".toList) = false then
    .error (.InvalidXorUrl ("Problem parsing the URL: invalid scheme or malformed url".toList))
  else
    let rest := url.drop 7
    let host := rest.takeWhile fun c => c ≠ '/' ∧ c ≠ '?' ∧ c ≠ '#'
    let after := rest.dropWhile fun c => c ≠ '/' ∧ c ≠ '?' ∧ c ≠ '#'
    if host = [] then .error (.InvalidXorUrl ("Problem parsing the URL: missing host".toList))
    else if containsSub host ("..".toList) then
      .error (.InvalidXorUrl ("host contains empty subname".toList))
    else
      let path := if after.head? = some '/' then after.takeWhile (fun c => c ≠ '?' ∧ c ≠ '#') else []
      let after2 := if after.head? = some '/' then after.dropWhile (fun c => c ≠ '?' ∧ c ≠ '#') else after
      let query := if after2.head? = some '?' then after2.drop 1 |>.takeWhile (· ≠ '#') else []
      let after3 := if after2.head? = some '?' then after2.drop 1 |>.dropWhile (· ≠ '#') else after2
      let fragment := if after3.head? = some '#' then after3.drop 1 else []
      if containsSub path ("//".toList) then
        .error (.InvalidXorUrl ("path contains empty component".toList))
      else
        let names := splitOnChar '.' host
        .ok { scheme := "safe".toList, host := host, sub_names := names.dropLast,
              tld := names.getLastD [], path := path, query_string := query,
              fragment := fragment }

/-! ## The SafeUrl value object and its operations -/

/-- Model of the `SafeUrl` struct. -/
structure SafeUrl where
  encoding_version : Nat
  xorname : List Nat
  nrs_host : Str
  type_tag : Nat
  data_type : SafeDataType
  content_type : SafeContentType
  path : Str
  sub_names : List Str
  query_string : Str
  fragment : Str
  content_version : Option Nat
deriving DecidableEq

/-- Model of `SafeUrl::is_nrs`. -/
def is_nrs (u : SafeUrl) : Bool := u.nrs_host ≠ []

/-- Re-attach the single leading `/` to a re-joined path (empty stays empty). -/
def normalizePathJoined (np : Str) : Str := if np = [] then [] else '/' :: np

/-- The pure path normalisation performed by `SafeUrl::set_path_internal`:
split on `/`, drop a leading empty segment, optionally percent-encode each
segment, re-join, and prepend a single `/` when non-empty. -/
def normalizePath (path : Str) (percent_encode : Bool) : Str :=
  if path = [] then []
  else
    let parts := splitOnChar '/' path
    let new_parts := parts.enum.filterMap fun pr =>
      if pr.2 ≠ [] ∨ 0 < pr.1 then
        some (if percent_encode then urlPercentEncode pr.2 else pr.2)
      else none
    normalizePathJoined (joinWith ['/'] new_parts)

/-- Model of `SafeUrl::set_path_internal` (pure state transformer). -/
def set_path_internal (u : SafeUrl) (path : Str) (percent_encode : Bool) : SafeUrl :=
  { u with path := normalizePath path percent_encode }

/-- Model of `SafeUrl::set_path`. -/
def set_path (u : SafeUrl) (path : Str) : SafeUrl := set_path_internal u path true

/-- The error message of `set_content_version_internal` for a non-numeric
version string (the source quotes the offending value; the quoting punctuation
is elided here). -/
def versionParseMsg (s : Str) : Str :=
  "v param could not be parsed as u64. invalid: ".toList ++ s

/-- Model of `SafeUrl::set_query_key`.  Returns the post-state and the error,
if any; note that the query string has already been rewritten when the
version-parse error is reported (the Rust receiver is `&mut`). -/
def set_query_key (u : SafeUrl) (key : Str) (val : Option Str) : SafeUrl × Option Error :=
  let pairs := parsePairs u.query_string
  let qs2 := serializePairs (applySetKey pairs key val)
  let u2 := { u with query_string := qs2 }
  if key = URL_VERSION_QUERY_NAME then
    match val with
    | some s =>
      match parseU64? s with
      | some n => ({ u2 with content_version := some n }, none)
      | none => (u2, some (.InvalidInput (versionParseMsg s)))
    | none => ({ u2 with content_version := none }, none)
  else (u2, none)

/-- Model of `SafeUrl::set_query_string`. -/
def set_query_string (u : SafeUrl) (query : Str) : SafeUrl × Option Error :=
  match query_key_last_internal query URL_VERSION_QUERY_NAME with
  | some s =>
    match parseU64? s with
    | some n => ({ u with content_version := some n, query_string := query }, none)
    | none => (u, some (.InvalidInput (versionParseMsg s)))
  | none => ({ u with content_version := none, query_string := query }, none)

/-- Model of `SafeUrl::set_content_version` (converts the version to decimal
and routes through `set_query_key`; a reported error is only logged). -/
def set_content_version (u : SafeUrl) (version : Option Nat) : SafeUrl :=
  (set_query_key u URL_VERSION_QUERY_NAME (version.map natToStr)).1

/-- Model of `SafeUrl::set_fragment`. -/
def set_fragment (u : SafeUrl) (fragment : Str) : SafeUrl := { u with fragment := fragment }

/-- Model of `SafeUrl::xorname_from_nrs_string` (sha3-256 of the UTF-8 bytes). -/
def xorname_from_nrs_string (name : Str) : List Nat := sha3_256 (utf8Encode name)

/-- The mismatch error message of `SafeUrl::new` (cites the nrs host's
top-level label and the textual rendering of the supplied xorname). -/
def mismatchMsg (tld : Str) (xorname : List Nat) : Str :=
  "input mis-match. nrs_host `".toList ++ tld ++ "` does not hash to xorname `".toList ++
    xornameDisplayModel xorname ++ "`".toList

/-- The final assembly steps of `SafeUrl::new` (lines 368–396): instantiate,
normalise the path without re-encoding, apply the query string, then let an
explicit `content_version` override the query's `v`. -/
def safeUrlBuild (xorname : List Nat) (host : Str) (type_tag : Nat)
    (data_type : SafeDataType) (content_type : SafeContentType)
    (path : Option Str) (subnames : List Str) (query_string : Option Str)
    (fragment : Option Str) (content_version : Option Nat) : Except Error SafeUrl :=
  let x0 : SafeUrl :=
    { encoding_version := 1, xorname := xorname, nrs_host := host,
      type_tag := type_tag, data_type := data_type, content_type := content_type,
      path := [], sub_names := subnames, query_string := [],
      fragment := fragment.getD [], content_version := none }
  let x1 := set_path_internal x0 (path.getD []) false
  let r := set_query_string x1 (query_string.getD [])
  match r.2 with
  | some e => .error e
  | none =>
    match content_version with
    | some v => .ok (set_content_version r.1 (some v))
    | none => .ok r.1

/-- The media-type admission check at the top of `SafeUrl::new`. -/
def mediaTypeGuardOk (content_type : SafeContentType) : Bool :=
  match content_type with
  | .MediaType m => is_media_type_supported m
  | _ => true

/-- Model of `SafeUrl::new`. -/
def safeUrlNew (xorname : List Nat) (nrs_host : Option Str) (type_tag : Nat)
    (data_type : SafeDataType) (content_type : SafeContentType)
    (path : Option Str) (sub_names : Option (List Str))
    (query_string : Option Str) (fragment : Option Str)
    (content_version : Option Nat) : Except Error SafeUrl :=
  if mediaTypeGuardOk content_type = false then
    .error (.InvalidMediaType ("Media-type not supported".toList))
  else
    match nrs_host with
    | some nh =>
      if nh = [] then .error (.InvalidInput ("nrs_host cannot be empty string.".toList))
      else
        match parseParts ("safe://".toList ++ nh) with
        | .error e => .error e
        | .ok parts =>
          let hashed_host := xorname_from_nrs_string parts.tld
          if hashed_host ≠ xorname then
            .error (.InvalidInput (mismatchMsg parts.tld xorname))
          else
            safeUrlBuild xorname nh type_tag data_type content_type path parts.sub_names
              query_string fragment content_version
    | none =>
      let subnames := sub_names.getD []
      if subnames.any (· = []) then .error (.InvalidInput ("empty subname".toList))
      else
        safeUrlBuild xorname [] type_tag data_type content_type path subnames
          query_string fragment content_version

/-! ## Serialisation (host_to_base, to_base, Display) and parsing entry points -/

/-- Big-endian bytes of a `u16` (model of `u16::to_be_bytes`). -/
def be16 (n : Nat) : List Nat := [n / 256 % 256, n % 256]

/-- Big-endian bytes of a `u64` (model of `u64::to_be_bytes`). -/
def be64 (n : Nat) : List Nat := (List.range 8).map fun i => n >>> (8 * (7 - i)) &&& 255

/-- Fuel-driven bit length (number of bits of `n`; zero for 0). -/
def bitLenFuel : Nat → Nat → Nat
  | 0, _ => 0
  | fuel + 1, n => if n = 0 then 0 else bitLenFuel fuel (n / 2) + 1

/-- Bit length of a natural number. -/
def bitLen (n : Nat) : Nat := bitLenFuel n n

/-- Number of leading zero bits of a `u64` (model of `u64::leading_zeros`). -/
def leadingZeros64 (n : Nat) : Nat := 64 - bitLen n

/-- The raw binary body assembled by `SafeUrl::host_to_base` (the `cid_vec`):
version byte, two content-type bytes (big endian), data-type byte, 32 xorname
bytes, and the type tag's big-endian bytes starting at offset
`leading_zeros / 8`. -/
def cidVec (u : SafeUrl) : Except Error (List Nat) :=
  match contentTypeCode u.content_type with
  | .error e => .error e
  | .ok ctcode =>
    .ok (1 :: be16 ctcode ++ dataTypeCode u.data_type :: u.xorname ++
      (be64 u.type_tag).drop (leadingZeros64 u.type_tag / 8))

/-- Model of `SafeUrl::host_to_base`. -/
def host_to_base (u : SafeUrl) (base : XorUrlBase) : Except Error Str :=
  match cidVec u with
  | .error e => .error e
  | .ok cid =>
    let tld := multibaseEncode base cid
    let subs := if u.sub_names ≠ [] then joinWith ['.'] u.sub_names ++ ['.'] else []
    .ok (subs ++ tld)

/-- Model of `SafeUrl::query_string_with_separator`. -/
def query_string_with_separator (u : SafeUrl) : Str :=
  if u.query_string = [] then [] else '?' :: u.query_string

/-- Model of `SafeUrl::fragment_with_separator`. -/
def fragment_with_separator (u : SafeUrl) : Str :=
  if u.fragment = [] then [] else '#' :: u.fragment

/-- Model of `SafeUrl::to_base`. -/
def to_base (u : SafeUrl) (base : XorUrlBase) : Except Error Str :=
  match host_to_base u base with
  | .error e => .error e
  | .ok host =>
    .ok ("safe://".toList ++ host ++ u.path ++
      query_string_with_separator u ++ fragment_with_separator u)

/-- Model of `SafeUrl::to_xorurl_string` (errors degrade to the empty string). -/
def to_xorurl_string (u : SafeUrl) : Str :=
  match to_base u DEFAULT_XORURL_BASE with
  | .ok s => s
  | .error _ => []

/-- Model of `SafeUrl::to_nrsurl_string`. -/
def to_nrsurl_string (u : SafeUrl) : Option Str :=
  if !is_nrs u then none
  else
    some ("safe://".toList ++ u.nrs_host ++ u.path ++
      query_string_with_separator u ++ fragment_with_separator u)

/-- Model of the `fmt::Display` implementation for `SafeUrl` (the canonical
string form: nrs form when `is_nrs`, else the default-base xorurl form). -/
def safeUrlToString (u : SafeUrl) : Str :=
  if is_nrs u then (to_nrsurl_string u).getD [] else to_xorurl_string u

/-- The "too short" error message of `SafeUrl::from_xorurl`. -/
def tooShortMsg (n : Nat) : Str :=
  "Invalid XOR-URL, encoded string too short: ".toList ++ natToStr n ++ " bytes".toList

/-- The "too long" error message of `SafeUrl::from_xorurl`. -/
def tooLongMsg (n : Nat) : Str :=
  "Invalid XOR-URL, encoded string too long: ".toList ++ natToStr n ++ " bytes".toList

/-- The stage of `SafeUrl::from_xorurl` after multibase decoding: length
checks, version check, content-type and data-type decoding, xorname and
type-tag extraction, and the final `SafeUrl::new` call. -/
def xorurlDecodeBytes (xorurl_bytes : List Nat) (parts : SafeUrlParts) : Except Error SafeUrl :=
  if xorurl_bytes.length < 36 then
    .error (.InvalidXorUrl (tooShortMsg xorurl_bytes.length))
  else if xorurl_bytes.length > 44 then
    .error (.InvalidXorUrl (tooLongMsg xorurl_bytes.length))
  else
    let u8_version := xorurl_bytes.getD 0 0
    if u8_version ≠ 1 then
      .error (.InvalidXorUrl
        ("Invalid or unsupported XOR-URL encoding version: ".toList ++ natToStr u8_version))
    else
      match contentTypeFromCode (256 * xorurl_bytes.getD 1 0 + xorurl_bytes.getD 2 0) with
      | .error e => .error e
      | .ok content_type =>
        match dataTypeFromCode (xorurl_bytes.getD 3 0) with
        | none =>
          .error (.InvalidXorUrl
            ("Invalid SAFE data type encoded in the XOR-URL string: ".toList ++
              natToStr (xorurl_bytes.getD 3 0)))
        | some data_type =>
          let xorname := (xorurl_bytes.drop 4).take 32
          let type_tag := bytesVal (xorurl_bytes.drop 36)
          safeUrlNew xorname none type_tag data_type content_type (some parts.path)
            (some parts.sub_names) (some parts.query_string) (some parts.fragment) none

/-- Model of `SafeUrl::from_xorurl`. -/
def from_xorurl (url : Str) : Except Error SafeUrl :=
  match parseParts url with
  | .error e => .error e
  | .ok parts =>
    match multibaseDecode parts.tld with
    | none => .error (.InvalidXorUrl ("Failed to decode XOR-URL".toList))
    | some xorurl_bytes => xorurlDecodeBytes xorurl_bytes parts

/-- Model of `SafeUrl::from_nrsurl`. -/
def from_nrsurl (url : Str) : Except Error SafeUrl :=
  match parseParts url with
  | .error e => .error e
  | .ok parts =>
    let hashed_host := xorname_from_nrs_string parts.tld
    safeUrlNew hashed_host (some parts.host) NRS_MAP_TYPE_TAG .PublishedSeqAppendOnlyData
      .NrsMapContainer (some parts.path) (some parts.sub_names) (some parts.query_string)
      (some parts.fragment) none

/-- Model of `SafeUrl::from_url` (try xorurl form, fall back to nrsurl form on
any error). -/
def from_url (url : Str) : Except Error SafeUrl :=
  match from_xorurl url with
  | .ok enc => .ok enc
  | .error _ => from_nrsurl url

/-! ## Derived notions used by claim statements -/

/-- Remove every pair whose key is `k`. -/
def dropKeyPairs (l : List (Str × Str)) (k : Str) : List (Str × Str) :=
  l.filter fun p => decide (p.1 ≠ k)

/-- Decoded values carried by key `k` in a pair list (the extraction performed
by `query_key_internal` after parsing). -/
def keyVals (l : List (Str × Str)) (k : Str) : List Str :=
  l.filterMap fun p => if p.1 = k then some p.2 else none

/-- The version-synchronisation invariant: the stored `content_version` equals
the numeric parse of the last `v` query value, and is `none` exactly when the
query string has no `v` key. -/
def versionSync (u : SafeUrl) : Prop :=
  u.content_version = (query_key_last_internal u.query_string URL_VERSION_QUERY_NAME).bind parseU64? ∧
  (u.content_version = none ↔
    query_key_last_internal u.query_string URL_VERSION_QUERY_NAME = none)

/-- The `v` key of a query string is absent or parses as `u64` (the condition
under which `set_query_string` succeeds). -/
def vQueryOk (q : Str) : Bool :=
  match query_key_last_internal q URL_VERSION_QUERY_NAME with
  | some s => (parseU64? s).isSome
  | none => true

/-! ## Concrete inputs used by witnesses and counterexamples -/

/-- A SafeUrl with an empty query string (used to exhibit the partial-mutation
behaviour of `set_query_key`). -/
def uEmptyQ : SafeUrl :=
  { encoding_version := 1, xorname := List.replicate 32 0, nrs_host := [], type_tag := 0,
    data_type := .SafeKey, content_type := .Raw, path := [], sub_names := [],
    query_string := [], fragment := [], content_version := none }

/-- A SafeUrl whose query holds two `name=` pairs (the repository's own
multi-value example). -/
def uTwoNames : SafeUrl :=
  { uEmptyQ with query_string := "name=John+Doe&name=Jane%20Doe".toList }

/-- A SafeUrl whose query holds a percent-encoded space (`%20`), re-emitted as
`+` by the form serialiser. -/
def uJane : SafeUrl :=
  { uEmptyQ with query_string := "name=Jane%20Doe".toList }

/-- Witness SafeUrl for tag compaction, tag `0`. -/
def uTag0 : SafeUrl := uEmptyQ

/-- Witness SafeUrl for tag compaction, tag `0xFFFFFFFFFFFFFFFF`. -/
def uTagMax : SafeUrl := { uEmptyQ with type_tag := 0xFFFFFFFFFFFFFFFF }

/-- Witness SafeUrl for tag compaction, tag `1`. -/
def uTag1 : SafeUrl := { uEmptyQ with type_tag := 1 }

/-- The alias host used for the round-trip counterexample: it is itself a
valid base32z xorurl label (the repository's own base32z fixture). -/
def hColl : Str := "hbyyyyncj1gc4dkptz8yhuycj1gc4dkptz8yhuycj1gc4dkptz8yhuycj1".toList

/-- The alias-form SafeUrl built on `hColl`: a perfectly valid field tuple
(consistent hash, NRS constants), whose canonical serialisation nevertheless
re-parses as a resource-form URL. -/
def xColl : SafeUrl :=
  { encoding_version := 1, xorname := xorname_from_nrs_string hColl, nrs_host := hColl,
    type_tag := NRS_MAP_TYPE_TAG, data_type := .PublishedSeqAppendOnlyData,
    content_type := .NrsMapContainer, path := [], sub_names := [], query_string := [],
    fragment := [], content_version := none }

/-- Expected result of constructing via `safeUrlNew` with query `v=7&a=b`
(used by the C3 witness). -/
def x3w : SafeUrl := { uEmptyQ with query_string := "v=7&a=b".toList, content_version := some 7 }

/-- Expected post-state of `set_query_key uTwoNames "name" (some "x")`. -/
def u2w : SafeUrl := { uEmptyQ with query_string := "name=x".toList }

/-- Expected post-state of `set_query_string uEmptyQ "a=b"`. -/
def u3w : SafeUrl := { uEmptyQ with query_string := "a=b".toList }

/-- Is an `Except` result a success? -/
def isOkResult (r : Except Error SafeUrl) : Bool :=
  match r with
  | .ok _ => true
  | .error _ => false

/-- Witness body bytes: tag 0 (36 bytes). -/
def c36w : List Nat := [1, 0, 0, 0] ++ List.replicate 32 0

/-- Witness body bytes: full 8-byte tag (44 bytes). -/
def c44w : List Nat := [1, 0, 0, 0] ++ List.replicate 32 0 ++ List.replicate 8 255

/-- Witness body bytes: tag 1 (37 bytes, trailing byte 1). -/
def c37w : List Nat := [1, 0, 0, 0] ++ List.replicate 32 0 ++ [1]

/-- A label body of 35 bytes (too short by one). -/
def bytes35 : List Nat := 1 :: List.replicate 34 7

/-- A label body of 45 bytes (too long by one). -/
def bytes45 : List Nat := 1 :: List.replicate 44 7

/-- A valid label body of exactly 36 bytes. -/
def bytes36 : List Nat := [1, 0, 0, 0] ++ List.replicate 32 7

/-- A valid label body of exactly 44 bytes. -/
def bytes44 : List Nat := [1, 0, 0, 0] ++ List.replicate 32 7 ++ List.replicate 8 255

/-- A full xorurl whose label decodes to 35 bytes. -/
def s35w : Str := "safe://".toList ++ multibaseEncode .Base32z bytes35

/-- A full xorurl whose label decodes to 45 bytes. -/
def s45w : Str := "safe://".toList ++ multibaseEncode .Base32z bytes45

/-- A full xorurl whose label decodes to exactly 36 valid bytes. -/
def s36w : Str := "safe://".toList ++ multibaseEncode .Base32z bytes36

/-- A full xorurl whose label decodes to exactly 44 valid bytes. -/
def s44w : Str := "safe://".toList ++ multibaseEncode .Base32z bytes44

/-- The parsed parts of a bare `safe://<label>` URL. -/
def hostOnlyParts (label : Str) : SafeUrlParts :=
  { scheme := "safe".toList, host := label, sub_names := [], tld := label,
    path := [], query_string := [], fragment := [] }

instance (u : SafeUrl) : Decidable (versionSync u) := by
  unfold versionSync
  infer_instance

/-- The SafeUrl produced by `from_nrsurl` on the one-letter alias url
(used by the C9 witness). -/
def x9w : SafeUrl :=
  { encoding_version := 1, xorname := xorname_from_nrs_string (['a'] : Str),
    nrs_host := ['a'], type_tag := NRS_MAP_TYPE_TAG,
    data_type := .PublishedSeqAppendOnlyData, content_type := .NrsMapContainer,
    path := [], sub_names := [], query_string := [], fragment := [],
    content_version := none }

/-! # Theorems -/

/-! ### Split / join lemmas -/

theorem splitOnAux_ne_nil (c : Char) (s acc : Str) : splitOnAux c s acc ≠ [] := by
  induction s generalizing acc with
  | nil => simp [splitOnAux]
  | cons x xs ih =>
    by_cases hx : x = c
    · simp [splitOnAux, hx]
    · simpa [splitOnAux, hx] using ih (x :: acc)

theorem splitOnAux_no_sep (c : Char) (p acc : Str) (h : ∀ a ∈ p, a ≠ c) :
    splitOnAux c p acc = [acc.reverse ++ p] := by
  induction p generalizing acc with
  | nil => simp [splitOnAux]
  | cons x xs ih =>
    have hx : x ≠ c := h x (by simp)
    rw [splitOnAux, if_neg hx, ih (x :: acc) (fun a ha => h a (by simp [ha]))]
    simp

theorem splitOnAux_sep (c : Char) (p rest acc : Str) (h : ∀ a ∈ p, a ≠ c) :
    splitOnAux c (p ++ c :: rest) acc = (acc.reverse ++ p) :: splitOnAux c rest [] := by
  induction p generalizing acc with
  | nil => simp [splitOnAux]
  | cons x xs ih =>
    have hx : x ≠ c := h x (by simp)
    rw [List.cons_append, splitOnAux, if_neg hx, ih (x :: acc) (fun a ha => h a (by simp [ha]))]
    simp

theorem splitOnChar_joinWith (c : Char) (pieces : List Str) (hne : pieces ≠ [])
    (h : ∀ p ∈ pieces, ∀ a ∈ p, a ≠ c) :
    splitOnChar c (joinWith [c] pieces) = pieces := by
  induction pieces with
  | nil => exact absurd rfl hne
  | cons p ps ih =>
    cases ps with
    | nil =>
      simpa [joinWith, splitOnChar] using splitOnAux_no_sep c p [] (h p (by simp))
    | cons q qs =>
      have hj : joinWith [c] (p :: q :: qs) = p ++ c :: joinWith [c] (q :: qs) := by
        simp [joinWith]
      rw [splitOnChar, hj, splitOnAux_sep c p _ [] (h p (by simp))]
      have := ih (by simp) (fun r hr a ha => h r (by simp [hr]) a ha)
      rw [splitOnChar] at this
      simp [this]

theorem joinWith_splitOnAux (c : Char) (s acc : Str) :
    joinWith [c] (splitOnAux c s acc) = acc.reverse ++ s := by
  induction s generalizing acc with
  | nil => simp [splitOnAux, joinWith]
  | cons x xs ih =>
    by_cases hx : x = c
    · subst hx
      rw [splitOnAux, if_pos rfl]
      have hne := splitOnAux_ne_nil x xs ([] : Str)
      cases hsp : splitOnAux x xs ([] : Str) with
      | nil => exact absurd hsp hne
      | cons y ys =>
        have := ih ([] : Str)
        rw [hsp] at this
        have h2 : joinWith [x] (y :: ys) = xs := by simpa using this
        simp [joinWith, h2]
    · rw [splitOnAux, if_neg hx]
      have := ih (x :: acc)
      simpa using this

theorem joinWith_splitOnChar (c : Char) (s : Str) :
    joinWith [c] (splitOnChar c s) = s := by
  simpa using joinWith_splitOnAux c s []

/-! ### takeWhile / dropWhile over appends -/

theorem takeWhile_append_all {p : Char → Bool} (l1 l2 : Str) (h : ∀ a ∈ l1, p a = true) :
    (l1 ++ l2).takeWhile p = l1 ++ l2.takeWhile p := by
  induction l1 with
  | nil => simp
  | cons x xs ih =>
    have hx := h x (by simp)
    simp [List.takeWhile_cons, hx, ih (fun a ha => h a (by simp [ha]))]

theorem dropWhile_append_all {p : Char → Bool} (l1 l2 : Str) (h : ∀ a ∈ l1, p a = true) :
    (l1 ++ l2).dropWhile p = l2.dropWhile p := by
  induction l1 with
  | nil => simp
  | cons x xs ih =>
    have hx := h x (by simp)
    simp [List.dropWhile_cons, hx, ih (fun a ha => h a (by simp [ha]))]

/-! ### Form-urlencoding round trip -/

theorem hexVal_hexDigitChar : ∀ n, n < 16 → hexVal? (hexDigitChar n) = some n := by decide

theorem fdStep_encodeChar (c : Char) (rest : Str) :
    fdStep .norm (formUrlEncodeChar c ++ rest) = c :: fdStep .norm rest := by
  unfold formUrlEncodeChar
  by_cases hsp : c = ' '
  · subst hsp
    simp [fdStep]
  · by_cases hsafe : isFormSafeChar c
    · have hpc : c ≠ '%' := by
        intro hc; rw [hc] at hsafe; exact absurd hsafe (by decide)
      have hpl : c ≠ '+' := by
        intro hc; rw [hc] at hsafe; exact absurd hsafe (by decide)
      simp [hsp, hsafe, fdStep, hpc, hpl]
    · by_cases h256 : c.toNat < 256
      · have hdiv : c.toNat / 16 < 16 := by omega
        have hmod : c.toNat % 16 < 16 := by omega
        have e1 := hexVal_hexDigitChar _ hdiv
        have e2 := hexVal_hexDigitChar _ hmod
        simp [hsp, hsafe, h256, fdStep, e1, e2]
        rw [Nat.div_add_mod, Char.ofNat_toNat]
      · have hpc : c ≠ '%' := by
          intro hc; rw [hc] at h256; exact absurd (by decide : ('%').toNat < 256) h256
        have hpl : c ≠ '+' := by
          intro hc; rw [hc] at h256; exact absurd (by decide : ('+').toNat < 256) h256
        simp [hsp, hsafe, h256, fdStep, hpc, hpl]

theorem formUrlEncode_cons (c : Char) (s : Str) :
    formUrlEncode (c :: s) = formUrlEncodeChar c ++ formUrlEncode s := by
  simp [formUrlEncode]

theorem formUrlDecode_formUrlEncode_append (s rest : Str) :
    fdStep .norm (formUrlEncode s ++ rest) = s ++ fdStep .norm rest := by
  induction s with
  | nil => simp [formUrlEncode]
  | cons c cs ih =>
    rw [formUrlEncode_cons, List.append_assoc, fdStep_encodeChar]
    simp [ih]

theorem formUrlDecode_formUrlEncode (s : Str) : formUrlDecode (formUrlEncode s) = s := by
  have := formUrlDecode_formUrlEncode_append s []
  simpa [formUrlDecode, fdStep, flushFd] using this

/-! ### Character exclusions for encoded text -/

theorem formUrlEncodeChar_excl (t : Char) (ht1 : t ≠ '+') (ht2 : isFormSafeChar t = false)
    (ht3 : t ≠ '%') (ht4 : ∀ n, n < 16 → hexDigitChar n ≠ t) (ht5 : t.toNat < 256) :
    ∀ c a, a ∈ formUrlEncodeChar c → a ≠ t := by
  intro c a ha
  unfold formUrlEncodeChar at ha
  by_cases hsp : c = ' '
  · simp [hsp] at ha
    subst ha; exact Ne.symm ht1
  · by_cases hsafe : isFormSafeChar c
    · simp [hsp, hsafe] at ha
      subst ha
      intro hct; rw [hct] at hsafe
      rw [hsafe] at ht2; cases ht2
    · by_cases h256 : c.toNat < 256
      · simp [hsp, hsafe, h256] at ha
        rcases ha with ha | ha | ha
        · subst ha; exact Ne.symm ht3
        · subst ha; exact ht4 _ (by omega)
        · subst ha; exact ht4 _ (by omega)
      · simp [hsp, hsafe, h256] at ha
        subst ha
        intro hct; rw [hct] at h256
        exact h256 ht5

theorem formUrlEncode_no_amp (s : Str) : ∀ a ∈ formUrlEncode s, a ≠ '&' := by
  intro a ha
  simp [formUrlEncode] at ha
  obtain ⟨c, _, hc⟩ := ha
  exact formUrlEncodeChar_excl '&' (by decide) (by decide) (by decide) (by decide) (by decide) c a hc

theorem formUrlEncode_no_eq (s : Str) : ∀ a ∈ formUrlEncode s, a ≠ '=' := by
  intro a ha
  simp [formUrlEncode] at ha
  obtain ⟨c, _, hc⟩ := ha
  exact formUrlEncodeChar_excl '=' (by decide) (by decide) (by decide) (by decide) (by decide) c a hc

theorem formUrlEncode_no_hash (s : Str) : ∀ a ∈ formUrlEncode s, a ≠ '#' := by
  intro a ha
  simp [formUrlEncode] at ha
  obtain ⟨c, _, hc⟩ := ha
  exact formUrlEncodeChar_excl '#' (by decide) (by decide) (by decide) (by decide) (by decide) c a hc

/-! ### Query-pair round trip -/

theorem splitFirstEq_append (k v : Str) (h : ∀ a ∈ k, a ≠ '=') :
    splitFirstEq (k ++ '=' :: v) = (k, v) := by
  induction k with
  | nil => simp [splitFirstEq]
  | cons x xs ih =>
    have hx : x ≠ '=' := h x (by simp)
    rw [List.cons_append, splitFirstEq, if_neg hx, ih (fun a ha => h a (by simp [ha]))]

theorem serializePair_ne_nil (p : Str × Str) : serializePair p ≠ [] := by
  unfold serializePair
  intro h
  exact absurd (List.append_eq_nil.mp h).2 (by simp)

theorem parsePairs_nil : parsePairs [] = [] := by decide

theorem parsePairs_piece (q : Str × Str) :
    (if serializePair q = [] then none
     else
       let kv := splitFirstEq (serializePair q)
       some (formUrlDecode kv.1, formUrlDecode kv.2)) = some q := by
  rw [if_neg (serializePair_ne_nil q)]
  show some (formUrlDecode (splitFirstEq (serializePair q)).1,
    formUrlDecode (splitFirstEq (serializePair q)).2) = some q
  unfold serializePair
  rw [splitFirstEq_append _ _ (formUrlEncode_no_eq q.1)]
  simp [formUrlDecode_formUrlEncode]

theorem serializePair_no_amp (q : Str × Str) : ∀ a ∈ serializePair q, a ≠ '&' := by
  intro a ha
  unfold serializePair at ha
  rcases List.mem_append.mp ha with h1 | h2
  · exact formUrlEncode_no_amp _ a h1
  · rcases List.mem_cons.mp h2 with h3 | h4
    · subst h3; decide
    · exact formUrlEncode_no_amp _ a h4

theorem parsePairs_serializePairs (l : List (Str × Str)) : parsePairs (serializePairs l) = l := by
  cases l with
  | nil => exact parsePairs_nil
  | cons p ps =>
    unfold parsePairs serializePairs
    rw [splitOnChar_joinWith '&' _ (by simp)
      (by
        intro piece hp a ha
        simp only [List.mem_map] at hp
        obtain ⟨q, _, hq2⟩ := hp
        subst hq2
        exact serializePair_no_amp q a ha)]
    generalize p :: ps = l'
    induction l' with
    | nil => simp
    | cons q qs ih =>
      rw [List.map_cons, List.filterMap_cons]
      have := parsePairs_piece q
      simp only [this, ih]

/-! ### applySetKey structure lemmas -/

theorem keyVals_cons (p : Str × Str) (l : List (Str × Str)) (k : Str) :
    keyVals (p :: l) k = if p.1 = k then p.2 :: keyVals l k else keyVals l k := by
  by_cases h : p.1 = k <;> simp [keyVals, List.filterMap_cons, h]

theorem dropKeyPairs_cons (p : Str × Str) (l : List (Str × Str)) (k : Str) :
    dropKeyPairs (p :: l) k = if p.1 = k then dropKeyPairs l k else p :: dropKeyPairs l k := by
  by_cases h : p.1 = k <;> simp [dropKeyPairs, List.filter_cons, h]

theorem keyVals_dropKeyPairs (k : Str) (l : List (Str × Str)) :
    keyVals (dropKeyPairs l k) k = [] := by
  induction l with
  | nil => rfl
  | cons p rest ih =>
    rw [dropKeyPairs_cons]
    by_cases hk : p.1 = k
    · simp [hk, ih]
    · simp [hk, keyVals_cons, ih]

theorem applySetKeyAux_cons (key : Str) (val : Option Str) (k0 v0 : Str)
    (rest : List (Str × Str)) (flag : Bool) :
    applySetKeyAux key val ((k0, v0) :: rest) flag =
      if k0 = key then
        match val with
        | some v =>
          if flag then applySetKeyAux key val rest flag
          else (key, v) :: applySetKeyAux key val rest true
        | none => applySetKeyAux key val rest flag
      else (k0, v0) :: applySetKeyAux key val rest flag := rfl

theorem applySetKeyAux_flag_true (k v : Str) (l : List (Str × Str)) :
    applySetKeyAux k (some v) l true = dropKeyPairs l k := by
  induction l with
  | nil => rfl
  | cons p rest ih =>
    obtain ⟨pk, pv⟩ := p
    rw [applySetKeyAux_cons, dropKeyPairs_cons]
    by_cases hk : pk = k <;> simp [hk, ih]

theorem applySetKeyAux_none (k : Str) (l : List (Str × Str)) (flag : Bool) :
    applySetKeyAux k none l flag = dropKeyPairs l k := by
  induction l generalizing flag with
  | nil => cases flag <;> rfl
  | cons p rest ih =>
    obtain ⟨pk, pv⟩ := p
    rw [applySetKeyAux_cons, dropKeyPairs_cons]
    by_cases hk : pk = k <;> simp [hk, ih flag]

theorem applySetKey_first_occurrence (k w v : Str) (l1 l2 : List (Str × Str))
    (h1 : ∀ p ∈ l1, p.1 ≠ k) :
    applySetKey (l1 ++ (k, w) :: l2) k (some v) = l1 ++ (k, v) :: dropKeyPairs l2 k := by
  unfold applySetKey
  induction l1 with
  | nil => simp [applySetKeyAux_cons, applySetKeyAux_flag_true]
  | cons p rest ih =>
    obtain ⟨pk, pv⟩ := p
    have hk : pk ≠ k := h1 (pk, pv) (by simp)
    have ih2 := ih (fun q hq => h1 q (by simp [hq]))
    rw [List.cons_append, applySetKeyAux_cons, if_neg hk, ih2]
    simp

theorem applySetKey_no_occurrence (k v : Str) (l : List (Str × Str))
    (h : ∀ p ∈ l, p.1 ≠ k) :
    applySetKey l k (some v) = l ++ [(k, v)] := by
  unfold applySetKey
  induction l with
  | nil => rfl
  | cons p rest ih =>
    obtain ⟨pk, pv⟩ := p
    have hk : pk ≠ k := h (pk, pv) (by simp)
    have ih2 := ih (fun q hq => h q (by simp [hq]))
    rw [applySetKeyAux_cons, if_neg hk, ih2]
    simp

theorem dropKeyPairs_applySetKeyAux (k : Str) (val : Option Str) (l : List (Str × Str))
    (flag : Bool) : dropKeyPairs (applySetKeyAux k val l flag) k = dropKeyPairs l k := by
  induction l generalizing flag with
  | nil =>
    cases flag with
    | true => cases val <;> rfl
    | false =>
      cases val with
      | none => rfl
      | some v => simp [applySetKeyAux, dropKeyPairs]
  | cons p rest ih =>
    obtain ⟨pk, pv⟩ := p
    rw [applySetKeyAux_cons, dropKeyPairs_cons]
    by_cases hk : pk = k
    · cases val with
      | some v =>
        cases flag with
        | true => simp [hk, ih true]
        | false => simp [hk, dropKeyPairs_cons, ih true]
      | none => simp [hk, ih flag]
    · cases val with
      | some v => simp [hk, dropKeyPairs_cons, ih flag]
      | none => simp [hk, dropKeyPairs_cons, ih flag]

theorem keyVals_applySetKeyAux_true (k v : Str) (l : List (Str × Str)) :
    keyVals (applySetKeyAux k (some v) l true) k = [] := by
  rw [applySetKeyAux_flag_true]
  exact keyVals_dropKeyPairs k l

theorem keyVals_applySetKey_some (k v : Str) (l : List (Str × Str)) :
    keyVals (applySetKey l k (some v)) k = [v] := by
  unfold applySetKey
  induction l with
  | nil => simp [applySetKeyAux, keyVals]
  | cons p rest ih =>
    obtain ⟨pk, pv⟩ := p
    rw [applySetKeyAux_cons]
    by_cases hk : pk = k
    · simp [hk, keyVals_cons, keyVals_applySetKeyAux_true k v rest]
    · simp [hk, keyVals_cons, ih]

theorem keyVals_applySetKey_none (k : Str) (l : List (Str × Str)) :
    keyVals (applySetKey l k none) k = [] := by
  unfold applySetKey
  rw [applySetKeyAux_none]
  exact keyVals_dropKeyPairs k l

theorem keyVals_applySetKeyAux_other (k k2 : Str) (hne : k2 ≠ k) (val : Option Str)
    (l : List (Str × Str)) (flag : Bool) :
    keyVals (applySetKeyAux k val l flag) k2 = keyVals l k2 := by
  induction l generalizing flag with
  | nil =>
    cases flag with
    | true => cases val <;> rfl
    | false =>
      cases val with
      | none => rfl
      | some v => simp [applySetKeyAux, keyVals, Ne.symm hne]
  | cons p rest ih =>
    obtain ⟨pk, pv⟩ := p
    rw [applySetKeyAux_cons, keyVals_cons]
    by_cases hk : pk = k
    · have hk2 : pk ≠ k2 := by rw [hk]; exact Ne.symm hne
      cases val with
      | some v =>
        cases flag with
        | true => simp [hk, hk2, Ne.symm hne, ih true]
        | false => simp [hk, hk2, Ne.symm hne, keyVals_cons, ih true]
      | none => simp [hk2, hk, Ne.symm hne, ih flag]
    · cases val with
      | some v => simp [hk, keyVals_cons, ih flag]
      | none => simp [hk, keyVals_cons, ih flag]

theorem keyVals_applySetKey_other (k k2 : Str) (hne : k2 ≠ k) (val : Option Str)
    (l : List (Str × Str)) : keyVals (applySetKey l k val) k2 = keyVals l k2 :=
  keyVals_applySetKeyAux_other k k2 hne val l false

/-! ### Numeric lemmas: digits, decimal round trip, byte values, bit length -/

theorem digitsAux_eq_digits (b : Nat) (hb : 2 ≤ b) :
    ∀ fuel n, n ≤ fuel → digitsAux b fuel n = Nat.digits b n := by
  intro fuel
  induction fuel with
  | zero =>
    intro n hn
    have : n = 0 := Nat.le_zero.mp hn
    subst this
    simp [digitsAux]
  | succ f ih =>
    intro n hn
    by_cases h0 : n = 0
    · subst h0; simp [digitsAux]
    · rw [digitsAux, if_neg h0]
      have hd : n / b < n := Nat.div_lt_self (Nat.pos_of_ne_zero h0) (by omega)
      rw [ih (n / b) (by omega)]
      rw [Nat.digits_def' (by omega : 1 < b) (Nat.pos_of_ne_zero h0)]

theorem natDigits_eq_digits (b : Nat) (hb : 2 ≤ b) (n : Nat) :
    natDigits b n = Nat.digits b n :=
  digitsAux_eq_digits b hb n n (Nat.le_refl n)

theorem foldl_base_acc (B : Nat) (l : List Nat) :
    ∀ acc, l.foldl (fun a d => a * B + d) acc =
      acc * B ^ l.length + Nat.ofDigits B l.reverse := by
  induction l with
  | nil => intro acc; simp [Nat.ofDigits]
  | cons d ds ih =>
    intro acc
    rw [List.foldl_cons, ih (acc * B + d)]
    rw [List.reverse_cons, Nat.ofDigits_append]
    simp [Nat.ofDigits_singleton, pow_succ]
    ring

theorem foldl_base_eq_ofDigits (B : Nat) (l : List Nat) :
    l.foldl (fun a d => a * B + d) 0 = Nat.ofDigits B l.reverse := by
  simpa using foldl_base_acc B l 0

theorem bytesVal_eq_ofDigits (bs : List Nat) :
    bytesVal bs = Nat.ofDigits 256 bs.reverse :=
  foldl_base_eq_ofDigits 256 bs

theorem foldl_congr_mem {α β : Type _} (l : List α) (f g : β → α → β) (init : β)
    (h : ∀ acc a, a ∈ l → f acc a = g acc a) : l.foldl f init = l.foldl g init := by
  induction l generalizing init with
  | nil => rfl
  | cons x xs ih =>
    rw [List.foldl_cons, List.foldl_cons, h init x (by simp)]
    exact ih _ (fun acc a ha => h acc a (by simp [ha]))

theorem digitCharOf_facts :
    ∀ d, d < 10 → (digitCharOf d ≠ '+' ∧ (digitCharOf d).isDigit = true ∧
      (digitCharOf d).toNat - ('0').toNat = d) := by decide

theorem parseU64_natToStr (n : Nat) (h : n < 2 ^ 64) : parseU64? (natToStr n) = some n := by
  by_cases h0 : n = 0
  · subst h0; decide
  · unfold natToStr
    rw [if_neg h0]
    have hdig : ∀ d ∈ Nat.digits 10 n, d < 10 := fun d hd => Nat.digits_lt_base (by omega) hd
    rw [natDigits_eq_digits 10 (by omega)]
    have hne : Nat.digits 10 n ≠ [] := Nat.digits_ne_nil_iff_ne_zero.mpr h0
    -- the rendered string: nonempty, starts with a digit, all digits
    set ds := Nat.digits 10 n with hds
    have hmem : ∀ c ∈ ((ds.map digitCharOf).reverse : Str), c.isDigit = true := by
      intro c hc
      rw [List.mem_reverse] at hc
      obtain ⟨d, hd1, hd2⟩ := List.mem_map.mp hc
      subst hd2
      exact (digitCharOf_facts d (hdig d hd1)).2.1
    unfold parseU64?
    have hshape : (if ((ds.map digitCharOf).reverse : Str).head? = some '+'
        then ((ds.map digitCharOf).reverse : Str).tail
        else ((ds.map digitCharOf).reverse : Str)) = ((ds.map digitCharOf).reverse : Str) := by
      apply if_neg
      intro hplus
      cases hl : ((ds.map digitCharOf).reverse : Str) with
      | nil => rw [hl] at hplus; simp at hplus
      | cons c cs =>
        rw [hl] at hplus
        simp at hplus
        have hcd : c.isDigit = true := hmem c (by rw [hl]; simp)
        rw [hplus] at hcd
        exact absurd hcd (by decide)
    rw [hshape]
    have hnil : ((ds.map digitCharOf).reverse : Str) ≠ [] := by
      simp only [ne_eq, List.reverse_eq_nil_iff, List.map_eq_nil_iff]
      exact hne
    rw [if_neg hnil]
    have hall : ((ds.map digitCharOf).reverse : Str).all Char.isDigit = true := by
      rw [List.all_eq_true]
      exact hmem
    rw [if_pos hall]
    have hfold : ((ds.map digitCharOf).reverse : Str).foldl
        (fun acc c => acc * 10 + (c.toNat - ('0').toNat)) 0 = n := by
      rw [← List.map_reverse, List.foldl_map]
      have hcongr : (ds.reverse).foldl
          (fun (acc : Nat) (d : Nat) => acc * 10 + ((digitCharOf d).toNat - ('0').toNat)) 0 =
          (ds.reverse).foldl (fun (acc : Nat) (d : Nat) => acc * 10 + d) 0 := by
        apply foldl_congr_mem
        intro a d hd
        rw [(digitCharOf_facts d (hdig d (List.mem_reverse.mp hd))).2.2]
      rw [hcongr, foldl_base_eq_ofDigits, List.reverse_reverse, hds]
      exact Nat.ofDigits_digits 10 n
    rw [hfold, if_pos h]

theorem bitLenFuel_lt (fuel : Nat) : ∀ n, n ≤ fuel → n < 2 ^ bitLenFuel fuel n := by
  induction fuel with
  | zero =>
    intro n hn
    have : n = 0 := Nat.le_zero.mp hn
    subst this
    simp [bitLenFuel]
  | succ f ih =>
    intro n hn
    by_cases h0 : n = 0
    · subst h0; simp [bitLenFuel]
    · rw [bitLenFuel, if_neg h0]
      have hd : n / 2 < n := Nat.div_lt_self (Nat.pos_of_ne_zero h0) (by omega)
      have := ih (n / 2) (by omega)
      rw [pow_succ]
      omega

theorem bitLenFuel_le (fuel : Nat) : ∀ n k, n ≤ fuel → n < 2 ^ k → bitLenFuel fuel n ≤ k := by
  induction fuel with
  | zero =>
    intro n k _ _
    simp [bitLenFuel]
  | succ f ih =>
    intro n k hn hk
    by_cases h0 : n = 0
    · subst h0; simp [bitLenFuel]
    · rw [bitLenFuel, if_neg h0]
      have hd : n / 2 < n := Nat.div_lt_self (Nat.pos_of_ne_zero h0) (by omega)
      have hkpos : 0 < k := by
        rcases Nat.eq_zero_or_pos k with h | h
        · subst h; simp at hk; omega
        · exact h
      have hdk : n / 2 < 2 ^ (k - 1) := by
        have : 2 ^ k = 2 * 2 ^ (k - 1) := by
          conv_lhs => rw [show k = (k - 1) + 1 by omega]
          rw [pow_succ]; ring
        omega
      have := ih (n / 2) (k - 1) (by omega) hdk
      omega

theorem bitLen_lt (n : Nat) : n < 2 ^ bitLen n := bitLenFuel_lt n n (Nat.le_refl n)

theorem bitLen_le (n k : Nat) (h : n < 2 ^ k) : bitLen n ≤ k :=
  bitLenFuel_le n n k (Nat.le_refl n) h

/-! ### Mutator-level lemmas -/

theorem query_key_internal_eq_keyVals (q k : Str) :
    query_key_internal q k = keyVals (parsePairs q) k := rfl

theorem query_key_last_serialize (l : List (Str × Str)) (k : Str) :
    query_key_last_internal (serializePairs l) k = (keyVals l k).getLast? := by
  unfold query_key_last_internal
  rw [query_key_internal_eq_keyVals, parsePairs_serializePairs]

theorem set_query_key_qs (u : SafeUrl) (key : Str) (val : Option Str) :
    (set_query_key u key val).1.query_string =
      serializePairs (applySetKey (parsePairs u.query_string) key val) := by
  unfold set_query_key
  by_cases hv : key = URL_VERSION_QUERY_NAME
  · cases val with
    | none => simp [hv]
    | some s => cases hps : parseU64? s <;> simp [hv, hps]
  · simp [hv]

theorem set_query_key_fields (u : SafeUrl) (key : Str) (val : Option Str) :
    (set_query_key u key val).1.encoding_version = u.encoding_version ∧
    (set_query_key u key val).1.xorname = u.xorname ∧
    (set_query_key u key val).1.nrs_host = u.nrs_host ∧
    (set_query_key u key val).1.type_tag = u.type_tag ∧
    (set_query_key u key val).1.data_type = u.data_type ∧
    (set_query_key u key val).1.content_type = u.content_type ∧
    (set_query_key u key val).1.path = u.path ∧
    (set_query_key u key val).1.sub_names = u.sub_names ∧
    (set_query_key u key val).1.fragment = u.fragment := by
  unfold set_query_key
  by_cases hv : key = URL_VERSION_QUERY_NAME
  · cases val with
    | none => simp [hv]
    | some s => cases hps : parseU64? s <;> simp [hv, hps]
  · simp [hv]

theorem set_query_key_other_key (u : SafeUrl) (key : Str) (val : Option Str)
    (h : key ≠ URL_VERSION_QUERY_NAME) :
    (set_query_key u key val).1.content_version = u.content_version ∧
    (set_query_key u key val).2 = none := by
  simp [set_query_key, h]

theorem set_query_key_v_some_ok (u : SafeUrl) (s : Str) (n : Nat) (h : parseU64? s = some n) :
    set_query_key u URL_VERSION_QUERY_NAME (some s) =
      ({ u with
          query_string := serializePairs
            (applySetKey (parsePairs u.query_string) URL_VERSION_QUERY_NAME (some s)),
          content_version := some n }, none) := by
  simp [set_query_key, h]

theorem set_query_key_v_some_err (u : SafeUrl) (s : Str) (h : parseU64? s = none) :
    set_query_key u URL_VERSION_QUERY_NAME (some s) =
      ({ u with
          query_string := serializePairs
            (applySetKey (parsePairs u.query_string) URL_VERSION_QUERY_NAME (some s)) },
        some (.InvalidInput (versionParseMsg s))) := by
  simp [set_query_key, h]

theorem set_query_key_v_none (u : SafeUrl) :
    set_query_key u URL_VERSION_QUERY_NAME none =
      ({ u with
          query_string := serializePairs
            (applySetKey (parsePairs u.query_string) URL_VERSION_QUERY_NAME none),
          content_version := none }, none) := by
  simp [set_query_key]

/-! ### The version-synchronisation invariant -/

theorem versionSync_set_query_string (u u2 : SafeUrl) (q : Str)
    (h : set_query_string u q = (u2, none)) : versionSync u2 := by
  unfold set_query_string at h
  split at h
  · rename_i s hlast
    split at h
    · rename_i n hps
      injection h with h1 h2
      subst h1
      constructor
      · simp [versionSync, hlast, hps]
      · simp [hlast]
    · rename_i hps
      injection h with h1 h2
      cases h2
  · rename_i hlast
    injection h with h1 h2
    subst h1
    constructor
    · simp [hlast]
    · simp [hlast]

theorem versionSync_set_query_key (u u2 : SafeUrl) (key : Str) (val : Option Str)
    (hs : versionSync u) (h : set_query_key u key val = (u2, none)) : versionSync u2 := by
  by_cases hv : key = URL_VERSION_QUERY_NAME
  · subst hv
    cases val with
    | none =>
      rw [set_query_key_v_none u] at h
      have hu2 := (Prod.mk.injEq _ _ _ _).mp h |>.1
      subst hu2
      constructor
      · simp [query_key_last_serialize, keyVals_applySetKey_none]
      · simp [query_key_last_serialize, keyVals_applySetKey_none]
    | some s =>
      cases hps : parseU64? s with
      | none =>
        rw [set_query_key_v_some_err u s hps] at h
        have := (Prod.mk.injEq _ _ _ _).mp h |>.2
        cases this
      | some n =>
        rw [set_query_key_v_some_ok u s n hps] at h
        have hu2 := (Prod.mk.injEq _ _ _ _).mp h |>.1
        subst hu2
        constructor
        · simp [query_key_last_serialize, keyVals_applySetKey_some, hps]
        · simp [query_key_last_serialize, keyVals_applySetKey_some]
  · have hcv := (set_query_key_other_key u key val hv).1
    have hqs := set_query_key_qs u key val
    have hu2 : u2 = (set_query_key u key val).1 := by rw [h]
    subst hu2
    have hlast : query_key_last_internal (set_query_key u key val).1.query_string
        URL_VERSION_QUERY_NAME =
        query_key_last_internal u.query_string URL_VERSION_QUERY_NAME := by
      rw [hqs, query_key_last_serialize,
        keyVals_applySetKey_other key URL_VERSION_QUERY_NAME (Ne.symm hv) val]
      rfl
    obtain ⟨hs1, hs2⟩ := hs
    constructor
    · rw [hcv, hlast]; exact hs1
    · rw [hcv, hlast]; exact hs2

theorem versionSync_set_content_version (u : SafeUrl) (vo : Option Nat)
    (hvo : ∀ n, vo = some n → n < 2 ^ 64) : versionSync (set_content_version u vo) := by
  unfold set_content_version
  cases vo with
  | none =>
    rw [show (Option.map natToStr none : Option Str) = none from rfl, set_query_key_v_none u]
    constructor
    · simp [query_key_last_serialize, keyVals_applySetKey_none]
    · simp [query_key_last_serialize, keyVals_applySetKey_none]
  | some n =>
    have hp := parseU64_natToStr n (hvo n rfl)
    rw [show (Option.map natToStr (some n) : Option Str) = some (natToStr n) from rfl,
      set_query_key_v_some_ok u (natToStr n) n hp]
    constructor
    · simp [query_key_last_serialize, keyVals_applySetKey_some, hp]
    · simp [query_key_last_serialize, keyVals_applySetKey_some]

theorem versionSync_safeUrlBuild (xorname : List Nat) (host : Str) (type_tag : Nat)
    (data_type : SafeDataType) (content_type : SafeContentType) (path : Option Str)
    (subnames : List Str) (query_string : Option Str) (fragment : Option Str)
    (content_version : Option Nat) (x : SafeUrl)
    (hcv : ∀ n, content_version = some n → n < 2 ^ 64)
    (h : safeUrlBuild xorname host type_tag data_type content_type path subnames
      query_string fragment content_version = .ok x) : versionSync x := by
  unfold safeUrlBuild at h
  simp only [] at h
  split at h
  · cases h
  · rename_i hr
    have hsync := versionSync_set_query_string _ _ (query_string.getD [])
      (Prod.ext rfl hr)
    cases content_version with
    | some v =>
      injection h with h1
      subst h1
      exact versionSync_set_content_version _ (some v) (fun n hn => by
        injection hn with hn2
        exact hn2 ▸ hcv v rfl)
    | none =>
      injection h with h1
      subst h1
      exact hsync

/-! ### Success characterisations of the constructors -/

theorem set_query_string_ok (u u2 : SafeUrl) (q : Str)
    (h : set_query_string u q = (u2, none)) :
    u2 = { u with
      query_string := q,
      content_version :=
        (query_key_last_internal q URL_VERSION_QUERY_NAME).bind parseU64? } := by
  unfold set_query_string at h
  split at h
  · rename_i s hlast
    split at h
    · rename_i n hps
      injection h with h1 h2
      rw [← h1]
      simp [hlast, hps]
    · rename_i hps
      injection h with h1 h2
      cases h2
  · rename_i hlast
    injection h with h1 h2
    rw [← h1]
    simp [hlast]

theorem set_content_version_some (u : SafeUrl) (v : Nat) (h : v < 2 ^ 64) :
    set_content_version u (some v) =
      { u with
        query_string := serializePairs
          (applySetKey (parsePairs u.query_string) URL_VERSION_QUERY_NAME (some (natToStr v))),
        content_version := some v } := by
  unfold set_content_version
  rw [show (Option.map natToStr (some v) : Option Str) = some (natToStr v) from rfl,
    set_query_key_v_some_ok u (natToStr v) v (parseU64_natToStr v h)]

theorem safeUrlBuild_ok_none (xorname : List Nat) (host : Str) (type_tag : Nat)
    (data_type : SafeDataType) (content_type : SafeContentType) (path : Option Str)
    (subnames : List Str) (query_string : Option Str) (fragment : Option Str) (x : SafeUrl)
    (h : safeUrlBuild xorname host type_tag data_type content_type path subnames
      query_string fragment none = .ok x) :
    ∃ u1, set_query_string
        { encoding_version := 1, xorname := xorname, nrs_host := host,
          type_tag := type_tag, data_type := data_type, content_type := content_type,
          path := normalizePath (path.getD []) false, sub_names := subnames,
          query_string := [], fragment := fragment.getD [], content_version := none }
        (query_string.getD []) = (u1, none) ∧ x = u1 := by
  unfold safeUrlBuild at h
  simp only [set_path_internal] at h
  split at h
  · cases h
  · rename_i hr
    injection h with h1
    exact ⟨_, Prod.ext rfl hr, h1.symm⟩

theorem safeUrlBuild_ok_some (xorname : List Nat) (host : Str) (type_tag : Nat)
    (data_type : SafeDataType) (content_type : SafeContentType) (path : Option Str)
    (subnames : List Str) (query_string : Option Str) (fragment : Option Str)
    (v : Nat) (x : SafeUrl)
    (h : safeUrlBuild xorname host type_tag data_type content_type path subnames
      query_string fragment (some v) = .ok x) :
    ∃ u1, set_query_string
        { encoding_version := 1, xorname := xorname, nrs_host := host,
          type_tag := type_tag, data_type := data_type, content_type := content_type,
          path := normalizePath (path.getD []) false, sub_names := subnames,
          query_string := [], fragment := fragment.getD [], content_version := none }
        (query_string.getD []) = (u1, none) ∧ x = set_content_version u1 (some v) := by
  unfold safeUrlBuild at h
  simp only [set_path_internal] at h
  split at h
  · cases h
  · rename_i hr
    injection h with h1
    exact ⟨_, Prod.ext rfl hr, h1.symm⟩

theorem safeUrlNew_xor_ok (xorname : List Nat) (type_tag : Nat)
    (data_type : SafeDataType) (content_type : SafeContentType) (path : Option Str)
    (sub_names : Option (List Str)) (query_string : Option Str) (fragment : Option Str)
    (content_version : Option Nat) (x : SafeUrl)
    (h : safeUrlNew xorname none type_tag data_type content_type path sub_names
      query_string fragment content_version = .ok x) :
    (∀ s ∈ sub_names.getD [], s ≠ []) ∧ mediaTypeGuardOk content_type = true ∧
      safeUrlBuild xorname [] type_tag data_type content_type path (sub_names.getD [])
        query_string fragment content_version = .ok x := by
  unfold safeUrlNew at h
  split at h
  · cases h
  · rename_i hmedia
    simp only [] at h
    split at h
    · cases h
    · rename_i hsub
      refine ⟨?_, by simpa using hmedia, h⟩
      intro s hs hnil
      apply hsub
      rw [List.any_eq_true]
      exact ⟨s, hs, by simp [hnil]⟩

theorem safeUrlNew_nrs_ok (xorname : List Nat) (nh : Str) (type_tag : Nat)
    (data_type : SafeDataType) (content_type : SafeContentType) (path : Option Str)
    (sub_names : Option (List Str)) (query_string : Option Str) (fragment : Option Str)
    (content_version : Option Nat) (x : SafeUrl)
    (h : safeUrlNew xorname (some nh) type_tag data_type content_type path sub_names
      query_string fragment content_version = .ok x) :
    ∃ parts, nh ≠ [] ∧ parseParts ("safe://".toList ++ nh) = .ok parts ∧
      xorname_from_nrs_string parts.tld = xorname ∧
      mediaTypeGuardOk content_type = true ∧
      safeUrlBuild xorname nh type_tag data_type content_type path parts.sub_names
        query_string fragment content_version = .ok x := by
  unfold safeUrlNew at h
  split at h
  · cases h
  · rename_i hmedia
    simp only [] at h
    split at h
    · cases h
    · rename_i hne
      split at h
      · cases h
      · rename_i parts hparse
        split at h
        · cases h
        · rename_i hhash
          refine ⟨parts, hne, hparse, ?_, by simpa using hmedia, h⟩
          by_cases heq : xorname_from_nrs_string parts.tld = xorname
          · exact heq
          · exact absurd heq (by simpa using hhash)

theorem versionSync_safeUrlNew (xorname : List Nat) (nrs_host : Option Str) (type_tag : Nat)
    (data_type : SafeDataType) (content_type : SafeContentType) (path : Option Str)
    (sub_names : Option (List Str)) (query_string : Option Str) (fragment : Option Str)
    (content_version : Option Nat) (x : SafeUrl)
    (hcv : ∀ n, content_version = some n → n < 2 ^ 64)
    (h : safeUrlNew xorname nrs_host type_tag data_type content_type path sub_names
      query_string fragment content_version = .ok x) : versionSync x := by
  cases nrs_host with
  | none =>
    exact versionSync_safeUrlBuild _ _ _ _ _ _ _ _ _ _ _ hcv
      (safeUrlNew_xor_ok _ _ _ _ _ _ _ _ _ _ h).2.2
  | some nh =>
    obtain ⟨parts, _, _, _, _, hb⟩ := safeUrlNew_nrs_ok _ _ _ _ _ _ _ _ _ _ _ h
    exact versionSync_safeUrlBuild _ _ _ _ _ _ _ _ _ _ _ hcv hb

/-! ### Path normalisation lemmas -/

theorem normalizePathJoined_shape (np : Str) :
    normalizePathJoined np = [] ∨ (normalizePathJoined np).head? = some '/' := by
  unfold normalizePathJoined
  by_cases h : np = []
  · simp [h]
  · simp [h]

theorem normalizePath_shape (p : Str) (pe : Bool) :
    normalizePath p pe = [] ∨ (normalizePath p pe).head? = some '/' := by
  unfold normalizePath
  by_cases hp : p = []
  · simp [hp]
  · rw [if_neg hp]
    exact normalizePathJoined_shape _

/-- Claim C7: `set_path` normalises the stored path to either the empty string
or a string beginning with `/`; setting `"no-leading-slash"` stores
`"/no-leading-slash"`, setting `""` stores `""`, and setting `"/"` stores `""`. -/
theorem C7_set_path_normalization :
    (∀ (u : SafeUrl) (p : Str),
      (set_path u p).path = [] ∨ (set_path u p).path.head? = some '/') ∧
    (∀ u : SafeUrl, (set_path u ("no-leading-slash".toList)).path = "/no-leading-slash".toList) ∧
    (∀ u : SafeUrl, (set_path u []).path = []) ∧
    (∀ u : SafeUrl, (set_path u ['/']).path = []) := by
  refine ⟨?_, ?_, ?_, ?_⟩
  · intro u p
    exact normalizePath_shape p true
  · intro u
    show normalizePath ("no-leading-slash".toList) true = "/no-leading-slash".toList
    decide
  · intro u
    show normalizePath [] true = []
    decide
  · intro u
    show normalizePath ['/'] true = []
    decide

/-- Claim C3: the stored `content_version` always agrees with the reserved `v`
query key after any successful mutator (`new`, `set_query_string`,
`set_query_key`, `set_content_version`): it equals the numeric parse of the
last `v` occurrence and is `none` exactly when the query has no `v` key. -/
theorem C3_version_sync :
    (∀ xorname nrs_host type_tag data_type content_type path sub_names query_string
        fragment content_version (x : SafeUrl),
      (∀ n, content_version = some n → n < 2 ^ 64) →
      safeUrlNew xorname nrs_host type_tag data_type content_type path sub_names
        query_string fragment content_version = .ok x →
      versionSync x) ∧
    (∀ (u u2 : SafeUrl) (q : Str), set_query_string u q = (u2, none) → versionSync u2) ∧
    (∀ (u u2 : SafeUrl) (key : Str) (val : Option Str),
      versionSync u → set_query_key u key val = (u2, none) → versionSync u2) ∧
    (∀ (u : SafeUrl) (vo : Option Nat),
      (∀ n, vo = some n → n < 2 ^ 64) → versionSync (set_content_version u vo)) :=
  ⟨fun a b c d e f g h i j x hcv hok => versionSync_safeUrlNew a b c d e f g h i j x hcv hok,
   fun u u2 q h => versionSync_set_query_string u u2 q h,
   fun u u2 key val hs h => versionSync_set_query_key u u2 key val hs h,
   fun u vo hvo => versionSync_set_content_version u vo hvo⟩

/-- Witness for C3 at concrete inputs: a `new` with `v=7` in the query, a
`set_query_string`, a `set_query_key`, and a `set_content_version`. -/
theorem C3_version_sync_witness :
    versionSync x3w ∧ versionSync u3w ∧ versionSync u2w ∧
      versionSync (set_content_version uEmptyQ (some 5)) :=
  ⟨C3_version_sync.1 (List.replicate 32 0) none 0 .SafeKey .Raw none none
      (some ("v=7&a=b".toList)) none none x3w (fun n hn => by cases hn) (by decide),
   C3_version_sync.2.1 uEmptyQ u3w ("a=b".toList) (by decide),
   C3_version_sync.2.2.1 uTwoNames u2w ("name".toList) (some ['x']) (by decide) (by decide),
   C3_version_sync.2.2.2 uEmptyQ (some 5) (fun n hn => by cases hn; decide)⟩

/-- Counterexample to claim C4 as stated: setting query key `v` to the
non-numeric string `"x"` on a SafeUrl with an empty query string returns an
error, yet the stored query string has already been rewritten (it now contains
`v=x`), so the receiver is not left unchanged. -/
theorem C4_counterexample :
    (set_query_key uEmptyQ URL_VERSION_QUERY_NAME (some ['x'])).2 ≠ none ∧
    (set_query_key uEmptyQ URL_VERSION_QUERY_NAME (some ['x'])).1.query_string ≠
      uEmptyQ.query_string := by decide

/-- Claim C4 (amended): calling `set_query_key("v", Some s)` with a
non-numeric `s` returns the version-parse error and leaves `content_version`
unchanged, but the stored query string has already been rewritten to the
re-encoded form that carries `v=s`. -/
theorem C4_nonnumeric_version (u : SafeUrl) (s : Str) (h : parseU64? s = none) :
    (set_query_key u URL_VERSION_QUERY_NAME (some s)).2 =
      some (.InvalidInput (versionParseMsg s)) ∧
    (set_query_key u URL_VERSION_QUERY_NAME (some s)).1.content_version = u.content_version ∧
    (set_query_key u URL_VERSION_QUERY_NAME (some s)).1.query_string =
      serializePairs (applySetKey (parsePairs u.query_string) URL_VERSION_QUERY_NAME (some s)) := by
  rw [set_query_key_v_some_err u s h]
  exact ⟨rfl, rfl, rfl⟩

/-- Witness for C4 (amended) at `u = uEmptyQ`, `s = "x"`. -/
theorem C4_nonnumeric_version_witness :
    parseU64? ['x'] = none ∧
    (set_query_key uEmptyQ URL_VERSION_QUERY_NAME (some ['x'])).2 =
      some (.InvalidInput (versionParseMsg ['x'])) ∧
    (set_query_key uEmptyQ URL_VERSION_QUERY_NAME (some ['x'])).1.content_version =
      uEmptyQ.content_version :=
  ⟨by decide, (C4_nonnumeric_version uEmptyQ ['x'] (by decide)).1,
   (C4_nonnumeric_version uEmptyQ ['x'] (by decide)).2.1⟩

/-- Claim C6: when the query holds two or more pairs with key `k`,
`set_query_key(k, Some v)` collapses them into a single `(k, v)` at the
position of the first occurrence, and pairs with other keys keep their
relative order. -/
theorem C6_set_query_key_collapse (u : SafeUrl) (k v w : Str) (l1 l2 : List (Str × Str))
    (hdecomp : parsePairs u.query_string = l1 ++ (k, w) :: l2)
    (hfirst : ∀ p ∈ l1, p.1 ≠ k)
    (hdup : ∃ p ∈ l2, p.1 = k) :
    parsePairs ((set_query_key u k (some v)).1.query_string) =
      l1 ++ (k, v) :: dropKeyPairs l2 k := by
  rw [set_query_key_qs, hdecomp, applySetKey_first_occurrence k w v l1 l2 hfirst,
    parsePairs_serializePairs]

/-- Witness for C6 on the repository's own two-`name` example. -/
theorem C6_set_query_key_collapse_witness :
    parsePairs ((set_query_key uTwoNames ("name".toList)
        (some ("Peggy Sue".toList))).1.query_string) =
      [] ++ ("name".toList, "Peggy Sue".toList) ::
        dropKeyPairs [("name".toList, "Jane Doe".toList)] ("name".toList) :=
  C6_set_query_key_collapse uTwoNames ("name".toList) ("Peggy Sue".toList)
    ("John Doe".toList) [] [("name".toList, "Jane Doe".toList)]
    (by decide) (by decide) (by decide)

/-- Claim C10: a successful `set_query_key(k, v)` re-encodes the whole query
string: decoded pairs for keys other than `k` are preserved in order and
value, while the textual surface form may change (a `%20`-encoded space is
re-emitted as `+`). -/
theorem C10_set_query_key_frame :
    (∀ (u u2 : SafeUrl) (k : Str) (v : Option Str),
      set_query_key u k v = (u2, none) →
      dropKeyPairs (parsePairs u2.query_string) k =
        dropKeyPairs (parsePairs u.query_string) k) ∧
    ((set_query_key uJane ("age".toList) (some ("25".toList))).1.query_string =
        "name=Jane+Doe&age=25".toList ∧
      uJane.query_string = "name=Jane%20Doe".toList ∧
      (set_query_key uJane ("age".toList) (some ("25".toList))).1.query_string ≠
        uJane.query_string ∧
      keyVals (parsePairs ((set_query_key uJane ("age".toList)
          (some ("25".toList))).1.query_string)) ("name".toList) =
        keyVals (parsePairs uJane.query_string) ("name".toList)) := by
  constructor
  · intro u u2 k v h
    have hu2 : u2 = (set_query_key u k v).1 := by rw [h]
    subst hu2
    rw [set_query_key_qs, parsePairs_serializePairs]
    exact dropKeyPairs_applySetKeyAux k v (parsePairs u.query_string) false
  · refine ⟨by decide, by decide, by decide, by decide⟩

/-- Witness for C10 at a concrete successful call. -/
theorem C10_set_query_key_frame_witness :
    dropKeyPairs (parsePairs u2w.query_string) ("name".toList) =
      dropKeyPairs (parsePairs uTwoNames.query_string) ("name".toList) :=
  C10_set_query_key_frame.1 uTwoNames u2w ("name".toList) (some ['x']) (by decide)

/-! ### Tag compaction (claim C5) -/

/-- Claim C5: in the binary body assembled by `host_to_base`, the type tag is
emitted from offset `leading_zeros/8` of its big-endian bytes: a zero tag gives
a 36-byte body, the full tag `0xFFFFFFFFFFFFFFFF` gives 44 bytes, and tag `1`
gives 37 bytes whose trailing byte is `1`. -/
theorem C5_tag_compaction :
    (∀ (u : SafeUrl) (bytes : List Nat), u.xorname.length = 32 → u.type_tag = 0 →
      cidVec u = .ok bytes → bytes.length = 36) ∧
    (∀ (u : SafeUrl) (bytes : List Nat), u.xorname.length = 32 →
      u.type_tag = 0xFFFFFFFFFFFFFFFF →
      cidVec u = .ok bytes → bytes.length = 44) ∧
    (∀ (u : SafeUrl) (bytes : List Nat), u.xorname.length = 32 → u.type_tag = 1 →
      cidVec u = .ok bytes → bytes.length = 37 ∧ bytes.getLast? = some 1) := by
  refine ⟨?_, ?_, ?_⟩
  · intro u bytes hx htag h
    unfold cidVec at h
    cases hct : contentTypeCode u.content_type with
    | error e => rw [hct] at h; cases h
    | ok c =>
      rw [hct] at h
      injection h with h1
      rw [← h1, htag]
      rw [show (be64 0).drop (leadingZeros64 0 / 8) = [] from by decide]
      simp [be16, hx]
  · intro u bytes hx htag h
    unfold cidVec at h
    cases hct : contentTypeCode u.content_type with
    | error e => rw [hct] at h; cases h
    | ok c =>
      rw [hct] at h
      injection h with h1
      rw [← h1, htag]
      rw [show (be64 0xFFFFFFFFFFFFFFFF).drop (leadingZeros64 0xFFFFFFFFFFFFFFFF / 8) =
        List.replicate 8 255 from by decide]
      simp [be16, hx]
  · intro u bytes hx htag h
    unfold cidVec at h
    cases hct : contentTypeCode u.content_type with
    | error e => rw [hct] at h; cases h
    | ok c =>
      rw [hct] at h
      injection h with h1
      rw [← h1, htag]
      rw [show (be64 1).drop (leadingZeros64 1 / 8) = [1] from by decide]
      constructor
      · simp [be16, hx]
      · rw [show (1 : Nat) :: be16 c ++ dataTypeCode u.data_type :: u.xorname ++ [1] =
          ((1 : Nat) :: be16 c ++ dataTypeCode u.data_type :: u.xorname) ++ [1] from by simp]
        rw [List.getLast?_append]
        rfl

/-- Witness for C5 at tags `0`, `0xFFFFFFFFFFFFFFFF` and `1`. -/
theorem C5_tag_compaction_witness :
    (cidVec uTag0 = .ok c36w ∧ c36w.length = 36) ∧
    (cidVec uTagMax = .ok c44w ∧ c44w.length = 44) ∧
    (cidVec uTag1 = .ok c37w ∧ c37w.length = 37 ∧ c37w.getLast? = some 1) :=
  ⟨⟨by decide, C5_tag_compaction.1 uTag0 c36w (by decide) rfl (by decide)⟩,
   ⟨by decide, C5_tag_compaction.2.1 uTagMax c44w (by decide) rfl (by decide)⟩,
   ⟨by decide, (C5_tag_compaction.2.2 uTag1 c37w (by decide) rfl (by decide)).1,
    (C5_tag_compaction.2.2 uTag1 c37w (by decide) rfl (by decide)).2⟩⟩

/-! ### Length bounds on decoding (claim C2) -/

theorem contentTypeFromCode_ok_guard (code : Nat) (ct : SafeContentType)
    (h : contentTypeFromCode code = .ok ct) : mediaTypeGuardOk ct = true := by
  unfold contentTypeFromCode at h
  split at h
  · injection h with h1; rw [← h1]; rfl
  · split at h
    · injection h with h1; rw [← h1]; rfl
    · split at h
      · injection h with h1; rw [← h1]; rfl
      · split at h
        · injection h with h1; rw [← h1]; rfl
        · split at h
          · rename_i m hfind
            injection h with h1
            rw [← h1]
            show is_media_type_supported m = true
            unfold is_media_type_supported mediaCodeOf
            unfold mediaStrOf at hfind
            cases hf : MEDIA_TYPE_CODES.find? (fun p => decide (p.2 = code)) with
            | none => rw [hf] at hfind; simp at hfind
            | some pr =>
              rw [hf] at hfind
              injection hfind with h2
              have hmem := List.mem_of_find?_eq_some hf
              cases hf2 : MEDIA_TYPE_CODES.find? (fun p => decide (p.1 = m)) with
              | none =>
                have hno := List.find?_eq_none.mp hf2 pr hmem
                rw [h2] at hno
                simp at hno
              | some pr2 => rfl
          · cases h

theorem set_query_string_succeeds (u : SafeUrl) (q : Str) (h : vQueryOk q = true) :
    (set_query_string u q).2 = none := by
  unfold set_query_string
  split
  · rename_i s hlast
    have h2 : (parseU64? s).isSome = true := by
      unfold vQueryOk at h
      rw [hlast] at h
      exact h
    cases hps : parseU64? s with
    | none => rw [hps] at h2; simp at h2
    | some n => rfl
  · rfl

theorem safeUrlNew_xor_succeeds (xorname : List Nat) (type_tag : Nat)
    (data_type : SafeDataType) (content_type : SafeContentType)
    (path : Str) (subs : List Str) (q : Str) (frag : Str)
    (hmedia : mediaTypeGuardOk content_type = true)
    (hsubs : ∀ s ∈ subs, s ≠ [])
    (hq : vQueryOk q = true) :
    isOkResult (safeUrlNew xorname none type_tag data_type content_type (some path)
      (some subs) (some q) (some frag) none) = true := by
  unfold safeUrlNew
  rw [if_neg (by simp [hmedia])]
  simp only []
  rw [if_neg (by
    rw [List.any_eq_true]
    rintro ⟨s, hs, hsnil⟩
    exact hsubs s hs (by simpa using hsnil))]
  unfold safeUrlBuild
  simp only [set_path_internal]
  split
  · rename_i e heq
    rw [set_query_string_succeeds _ ((some q).getD []) hq] at heq
    exact Option.noConfusion heq
  · rfl

theorem from_xorurl_decode (url : Str) (parts : SafeUrlParts) (bytes : List Nat)
    (hparse : parseParts url = .ok parts)
    (hdec : multibaseDecode parts.tld = some bytes) :
    from_xorurl url = xorurlDecodeBytes bytes parts := by
  unfold from_xorurl
  rw [hparse]
  simp only []
  rw [hdec]

theorem xorurlDecodeBytes_valid (bytes : List Nat) (parts : SafeUrlParts)
    (h36 : ¬ bytes.length < 36) (h44 : ¬ bytes.length > 44)
    (hver : bytes.getD 0 0 = 1) (ct : SafeContentType) (dt : SafeDataType)
    (hct : contentTypeFromCode (256 * bytes.getD 1 0 + bytes.getD 2 0) = .ok ct)
    (hdt : dataTypeFromCode (bytes.getD 3 0) = some dt) :
    xorurlDecodeBytes bytes parts =
      safeUrlNew (List.take 32 (List.drop 4 bytes)) none (bytesVal (List.drop 36 bytes))
        dt ct (some parts.path) (some parts.sub_names) (some parts.query_string)
        (some parts.fragment) none := by
  unfold xorurlDecodeBytes
  rw [if_neg h36, if_neg h44]
  simp only [hver, hct, hdt]
  rw [if_neg (by simp)]

/-- Claim C2: after multibase decoding, a label body of fewer than 36 bytes is
rejected with the too-short error citing the byte count, a body of more than
44 bytes with the too-long error citing the byte count, and bodies of exactly
36 and exactly 44 bytes pass both length checks and are accepted when the
version, content-type and data-type bytes are valid (and the URL parts are
otherwise acceptable). -/
theorem C2_length_bounds :
    (∀ (url : Str) (parts : SafeUrlParts) (bytes : List Nat),
      parseParts url = .ok parts → multibaseDecode parts.tld = some bytes →
      bytes.length < 36 →
      from_xorurl url = .error (.InvalidXorUrl (tooShortMsg bytes.length))) ∧
    (∀ (url : Str) (parts : SafeUrlParts) (bytes : List Nat),
      parseParts url = .ok parts → multibaseDecode parts.tld = some bytes →
      bytes.length > 44 →
      from_xorurl url = .error (.InvalidXorUrl (tooLongMsg bytes.length))) ∧
    (∀ (url : Str) (parts : SafeUrlParts) (bytes : List Nat),
      parseParts url = .ok parts → multibaseDecode parts.tld = some bytes →
      (bytes.length = 36 ∨ bytes.length = 44) →
      bytes.getD 0 0 = 1 →
      (contentTypeFromCode (256 * bytes.getD 1 0 + bytes.getD 2 0)).isOk = true →
      (dataTypeFromCode (bytes.getD 3 0)).isSome = true →
      (∀ s ∈ parts.sub_names, s ≠ []) →
      vQueryOk parts.query_string = true →
      isOkResult (from_xorurl url) = true) := by
  refine ⟨?_, ?_, ?_⟩
  · intro url parts bytes hparse hdec hlen
    rw [from_xorurl_decode url parts bytes hparse hdec]
    unfold xorurlDecodeBytes
    rw [if_pos hlen]
  · intro url parts bytes hparse hdec hlen
    rw [from_xorurl_decode url parts bytes hparse hdec]
    unfold xorurlDecodeBytes
    rw [if_neg (by omega), if_pos hlen]
  · intro url parts bytes hparse hdec hlen hver hct hdt hsubs hq
    rw [from_xorurl_decode url parts bytes hparse hdec]
    cases hctc : contentTypeFromCode (256 * bytes.getD 1 0 + bytes.getD 2 0) with
    | error e => rw [hctc] at hct; simp [Except.isOk, Except.toBool] at hct
    | ok ct =>
      cases hdtc : dataTypeFromCode (bytes.getD 3 0) with
      | none => rw [hdtc] at hdt; simp at hdt
      | some dt =>
        rw [xorurlDecodeBytes_valid bytes parts (by omega) (by omega) hver ct dt hctc hdtc]
        exact safeUrlNew_xor_succeeds _ _ dt ct _ _ _ _
          (contentTypeFromCode_ok_guard _ ct hctc) hsubs hq

/-- Witness for C2: concrete labels decoding to 35, 45, 36 and 44 bytes. -/
theorem C2_length_bounds_witness :
    (from_xorurl s35w = .error (.InvalidXorUrl (tooShortMsg 35)) ∧
      bytes35.length = 35) ∧
    (from_xorurl s45w = .error (.InvalidXorUrl (tooLongMsg 45)) ∧
      bytes45.length = 45) ∧
    isOkResult (from_xorurl s36w) = true ∧
    isOkResult (from_xorurl s44w) = true :=
  ⟨⟨C2_length_bounds.1 s35w (hostOnlyParts (multibaseEncode .Base32z bytes35)) bytes35
      (by decide) (by decide) (by decide), by decide⟩,
   ⟨C2_length_bounds.2.1 s45w (hostOnlyParts (multibaseEncode .Base32z bytes45)) bytes45
      (by decide) (by decide) (by decide), by decide⟩,
   C2_length_bounds.2.2 s36w (hostOnlyParts (multibaseEncode .Base32z bytes36)) bytes36
      (by decide) (by decide) (by decide) (by decide) (by decide) (by decide)
      (by decide) (by decide),
   C2_length_bounds.2.2 s44w (hostOnlyParts (multibaseEncode .Base32z bytes44)) bytes44
      (by decide) (by decide) (by decide) (by decide) (by decide) (by decide)
      (by decide) (by decide)⟩

/-! ### Alias/hash consistency (claim C8) and NRS constants (claim C9) -/

/-- Claim C8 counterexample: with a zero xorname and alias host `a`, `new`
fails with the mismatch error, but that message cites only the host label and
the supplied xorname; the hex rendering of the computed hash of `a` does not
occur in it, contrary to the claim that both hashes are cited. -/
theorem C8_counterexample :
    safeUrlNew (List.replicate 32 0) (some (['a'] : Str)) 0 .SafeKey .Raw
        none none none none none
      = .error (.InvalidInput (mismatchMsg (['a'] : Str) (List.replicate 32 0))) ∧
    containsSub (mismatchMsg (['a'] : Str) (List.replicate 32 0))
      (xornameDisplayModel (xorname_from_nrs_string (['a'] : Str))) = false := by
  constructor
  · decide
  · decide

/-- Claim C8 (amended): constructing with a non-empty alias host whose
top-level label does not hash to the supplied xorname fails with the mismatch
error; the message cites the host's top-level label and the supplied xorname
(but not the computed hash). -/
theorem C8_hash_mismatch (xorname : List Nat) (nh : Str) (parts : SafeUrlParts)
    (type_tag : Nat) (dt : SafeDataType) (ct : SafeContentType)
    (path : Option Str) (subs : Option (List Str)) (q : Option Str)
    (frag : Option Str) (cv : Option Nat)
    (hmedia : mediaTypeGuardOk ct = true)
    (hnh : nh ≠ [])
    (hparse : parseParts ("safe://".toList ++ nh) = .ok parts)
    (hmis : xorname_from_nrs_string parts.tld ≠ xorname) :
    safeUrlNew xorname (some nh) type_tag dt ct path subs q frag cv
      = .error (.InvalidInput (mismatchMsg parts.tld xorname)) := by
  unfold safeUrlNew
  rw [if_neg (by simp [hmedia])]
  simp only []
  rw [if_neg hnh, hparse]
  simp only []
  rw [if_pos hmis]

/-- Witness for C8: the zero xorname with alias host `a`. -/
theorem C8_hash_mismatch_witness :
    mediaTypeGuardOk .Raw = true ∧ (['a'] : Str) ≠ [] ∧
    parseParts ("safe://a".toList) = .ok (hostOnlyParts (['a'] : Str)) ∧
    xorname_from_nrs_string (hostOnlyParts (['a'] : Str)).tld ≠ List.replicate 32 0 ∧
    safeUrlNew (List.replicate 32 0) (some (['a'] : Str)) 0 .SafeKey .Raw
        none none none none none
      = .error (.InvalidInput
          (mismatchMsg (hostOnlyParts (['a'] : Str)).tld (List.replicate 32 0))) :=
  ⟨by decide, by decide, by decide, by decide,
   C8_hash_mismatch (List.replicate 32 0) (['a'] : Str) (hostOnlyParts (['a'] : Str))
     0 .SafeKey .Raw none none none none none
     (by decide) (by decide) (by decide) (by decide)⟩

/-- Claim C9: every SafeUrl accepted by `from_nrsurl` carries the fixed NRS
map type tag, data type `PublishedSeqAppendOnlyData`, content type
`NrsMapContainer`, and the sha3-256 hash of the host top-level label as its
xorname. -/
theorem C9_nrs_constants (url : Str) (x : SafeUrl)
    (h : from_nrsurl url = .ok x) :
    x.type_tag = NRS_MAP_TYPE_TAG ∧
    x.data_type = .PublishedSeqAppendOnlyData ∧
    x.content_type = .NrsMapContainer ∧
    ∃ parts, parseParts url = .ok parts ∧
      x.xorname = xorname_from_nrs_string parts.tld := by
  unfold from_nrsurl at h
  split at h
  · cases h
  · rename_i parts hparse
    obtain ⟨parts2, hne, hparse2, hhash, hmedia, hb⟩ :=
      safeUrlNew_nrs_ok _ _ _ _ _ _ _ _ _ _ _ h
    obtain ⟨u1, hq, hx⟩ := safeUrlBuild_ok_none _ _ _ _ _ _ _ _ _ _ hb
    have hu1 := set_query_string_ok _ _ _ hq
    subst hx
    rw [hu1]
    exact ⟨rfl, rfl, rfl, parts, hparse, rfl⟩

/-- Witness for C9: the alias url `safe://a`. -/
theorem C9_nrs_constants_witness :
    from_nrsurl ("safe://a".toList) = .ok x9w ∧
    (x9w.type_tag = NRS_MAP_TYPE_TAG ∧
      x9w.data_type = .PublishedSeqAppendOnlyData ∧
      x9w.content_type = .NrsMapContainer ∧
      ∃ parts, parseParts ("safe://a".toList) = .ok parts ∧
        x9w.xorname = xorname_from_nrs_string parts.tld) :=
  ⟨by decide, C9_nrs_constants ("safe://a".toList) x9w (by decide)⟩

/-! ### Round-trip infrastructure for claim C1: type-tag bytes -/

theorem be64_explicit (t : Nat) :
    be64 t = [t >>> 56 &&& 255, t >>> 48 &&& 255, t >>> 40 &&& 255, t >>> 32 &&& 255,
      t >>> 24 &&& 255, t >>> 16 &&& 255, t >>> 8 &&& 255, t >>> 0 &&& 255] := rfl

theorem bytesVal_be64 (t : Nat) (h : t < 2 ^ 64) : bytesVal (be64 t) = t := by
  rw [be64_explicit]
  unfold bytesVal
  simp only [List.foldl_cons, List.foldl_nil,
    show (255 : Nat) = 2 ^ 8 - 1 from rfl,
    Nat.and_pow_two_sub_one_eq_mod, Nat.shiftRight_eq_div_pow]
  omega

theorem be64_getD_zero (t i : Nat) (hi : i < 8) (h : t < 2 ^ (56 - 8 * i)) :
    (be64 t).getD i 0 = 0 := by
  have hz : ∀ s : Nat, t < 2 ^ s → t >>> s &&& 255 = 0 := by
    intro s hs
    rw [Nat.shiftRight_eq_div_pow, Nat.div_eq_of_lt hs]
    decide
  have hcase : i = 0 ∨ i = 1 ∨ i = 2 ∨ i = 3 ∨ i = 4 ∨ i = 5 ∨ i = 6 ∨ i = 7 := by omega
  rw [be64_explicit]
  rcases hcase with rfl | rfl | rfl | rfl | rfl | rfl | rfl | rfl <;> exact hz _ h

theorem bytesVal_drop_zeros :
    ∀ (k : Nat) (l : List Nat), (∀ i < k, l.getD i 0 = 0) →
      bytesVal (l.drop k) = bytesVal l := by
  intro k
  induction k with
  | zero => intro l _; rfl
  | succ k ih =>
    intro l h
    cases l with
    | nil => simp
    | cons x xs =>
      have hx : x = 0 := h 0 (Nat.succ_pos k)
      subst hx
      have h2 : ∀ i < k, xs.getD i 0 = 0 := fun i hik => h (i + 1) (by omega)
      calc bytesVal ((0 :: xs).drop (k + 1)) = bytesVal (xs.drop k) := by simp
      _ = bytesVal xs := ih xs h2
      _ = bytesVal (0 :: xs) := by
            unfold bytesVal
            rw [List.foldl_cons]

theorem tag_roundtrip (t : Nat) (h : t < 2 ^ 64) :
    bytesVal ((be64 t).drop (leadingZeros64 t / 8)) = t := by
  rw [bytesVal_drop_zeros (leadingZeros64 t / 8) (be64 t) ?hz, bytesVal_be64 t h]
  case hz =>
    intro i hi
    have hb := bitLen_lt t
    have hble : bitLen t ≤ 64 := bitLen_le t 64 h
    unfold leadingZeros64 at hi
    apply be64_getD_zero t i
    · omega
    · calc t < 2 ^ bitLen t := hb
      _ ≤ 2 ^ (56 - 8 * i) := Nat.pow_le_pow_right (by omega) (by omega)

theorem be64_mem_lt (t b : Nat) (h : b ∈ be64 t) : b < 256 := by
  rw [be64_explicit] at h
  have h255 : ∀ x : Nat, x &&& 255 < 256 := by
    intro x
    rw [show (255 : Nat) = 2 ^ 8 - 1 from rfl, Nat.and_pow_two_sub_one_eq_mod]
    exact Nat.mod_lt _ (by norm_num)
  simp only [List.mem_cons, List.not_mem_nil, or_false] at h
  rcases h with h | h | h | h | h | h | h | h <;> (subst h; exact h255 _)

theorem tag_bytes_length (t : Nat) :
    ((be64 t).drop (leadingZeros64 t / 8)).length = 8 - leadingZeros64 t / 8 := by
  rw [List.length_drop, show (be64 t).length = 8 from rfl]

/-! ### Round-trip infrastructure for claim C1: base-x codec -/

theorem idxOfChar_b32z : ∀ d < 32,
    idxOfChar BASE32Z_ALPHABET (BASE32Z_ALPHABET.getD d ' ') = some d := by decide

theorem mapM_idx_b32z (ds : List Nat) (h : ∀ d ∈ ds, d < 32) :
    (ds.map fun d => BASE32Z_ALPHABET.getD d ' ').mapM (idxOfChar BASE32Z_ALPHABET)
      = some ds := by
  induction ds with
  | nil => rfl
  | cons d ds ih =>
    rw [List.map_cons, List.mapM_cons, idxOfChar_b32z d (h d (by simp)),
      ih (fun a ha => h a (by simp [ha]))]
    rfl

theorem digitsBE_32_lt (n d : Nat) (hd : d ∈ digitsBE 32 n) : d < 32 := by
  unfold digitsBE at hd
  rw [natDigits_eq_digits 32 (by norm_num)] at hd
  exact Nat.digits_lt_base (by norm_num) (List.mem_reverse.mp hd)

theorem decodeBaseX_encode_b32z (bytes : List Nat)
    (hb : ∀ b ∈ bytes, b < 256) (hhead : bytes.head? = some 1) :
    decodeBaseX BASE32Z_ALPHABET (encodeBaseX BASE32Z_ALPHABET bytes) = some bytes := by
  obtain ⟨rest, rfl⟩ : ∃ rest, bytes = 1 :: rest := by
    cases bytes with
    | nil => cases hhead
    | cons x xs =>
      refine ⟨xs, ?_⟩
      have hx : x = 1 := by injection hhead
      rw [hx]
  have hrev : Nat.digits 256 (bytesVal (1 :: rest)) = ((1 : Nat) :: rest).reverse := by
    rw [bytesVal_eq_ofDigits]
    refine Nat.digits_ofDigits 256 (by norm_num) _ ?_ ?_
    · intro l hl
      exact hb l (List.mem_reverse.mp hl)
    · intro hne
      have h1 : ((1 : Nat) :: rest).reverse.getLast? = some 1 := by
        rw [List.getLast?_reverse]
        rfl
      rw [List.getLast?_eq_getLast _ hne] at h1
      injection h1 with h1
      omega
  have hn0 : bytesVal (1 :: rest) ≠ 0 := by
    intro h0
    rw [h0] at hrev
    simp at hrev
  have henc : encodeBaseX BASE32Z_ALPHABET ((1 : Nat) :: rest) =
      (digitsBE 32 (bytesVal (1 :: rest))).map (fun d => BASE32Z_ALPHABET.getD d ' ') := by
    unfold encodeBaseX
    rw [show ((1 : Nat) :: rest).takeWhile (fun b => decide (b = 0)) = [] from rfl]
    rw [show BASE32Z_ALPHABET.length = 32 from rfl]
    rfl
  rw [henc]
  unfold decodeBaseX
  rw [mapM_idx_b32z _ (fun d hd => digitsBE_32_lt _ d hd)]
  simp only []
  have hdig : digitsBE 32 (bytesVal (1 :: rest)) =
      (Nat.digits 32 (bytesVal (1 :: rest))).reverse := by
    unfold digitsBE
    rw [natDigits_eq_digits 32 (by norm_num)]
  have hne32 : Nat.digits 32 (bytesVal (1 :: rest)) ≠ [] :=
    Nat.digits_ne_nil_iff_ne_zero.mpr hn0
  cases hidxs : digitsBE 32 (bytesVal (1 :: rest)) with
  | nil =>
    rw [hdig] at hidxs
    exact absurd (by simpa using hidxs) hne32
  | cons d0 tl =>
    have hd0 : d0 ≠ 0 := by
      have hh : (digitsBE 32 (bytesVal (1 :: rest))).head? =
          (Nat.digits 32 (bytesVal (1 :: rest))).getLast? := by
        rw [hdig, List.head?_reverse]
      rw [hidxs, List.getLast?_eq_getLast _ hne32] at hh
      injection hh with hh
      rw [hh]
      exact Nat.getLast_digit_ne_zero 32 hn0
    rw [show (d0 :: tl).takeWhile (fun d => decide (d = 0)) = [] by
      rw [List.takeWhile_cons]
      simp [hd0]]
    rw [show BASE32Z_ALPHABET.length = 32 from rfl]
    have hfold : (d0 :: tl).foldl (fun acc d => acc * 32 + d) 0 = bytesVal (1 :: rest) := by
      rw [foldl_base_eq_ofDigits 32 (d0 :: tl)]
      rw [show (d0 :: tl) = digitsBE 32 (bytesVal (1 :: rest)) from hidxs.symm, hdig,
        List.reverse_reverse]
      exact Nat.ofDigits_digits 32 _
    rw [hfold]
    unfold natToBytesBE
    rw [natDigits_eq_digits 256 (by norm_num), hrev, List.reverse_reverse]
    rfl

theorem multibaseDecode_encode_b32z (bytes : List Nat)
    (hb : ∀ b ∈ bytes, b < 256) (hhead : bytes.head? = some 1) :
    multibaseDecode (multibaseEncode .Base32z bytes) = some bytes := by
  unfold multibaseEncode multibaseDecode
  simp only []
  exact decodeBaseX_encode_b32z bytes hb hhead

theorem getD_mem_or (l : Str) (i : Nat) (d : Char) : l.getD i d ∈ l ∨ l.getD i d = d := by
  rw [List.getD_eq_getElem?_getD]
  by_cases h : i < l.length
  · left
    rw [List.getElem?_eq_getElem h]
    exact List.getElem_mem h
  · right
    rw [List.getElem?_eq_none (by omega)]
    rfl

theorem encodeBaseX_chars (alpha : Str) (bytes : List Nat) :
    ∀ c ∈ encodeBaseX alpha bytes, c ∈ alpha ∨ c = ' ' := by
  intro c hc
  unfold encodeBaseX at hc
  rw [List.mem_append] at hc
  rcases hc with hc | hc
  · have hce := List.eq_of_mem_replicate hc
    subst hce
    exact getD_mem_or alpha 0 ' '
  · rw [List.mem_map] at hc
    obtain ⟨d, _, rfl⟩ := hc
    exact getD_mem_or alpha d ' '

theorem b32z_label_safe (bytes : List Nat) (c : Char)
    (hc : c ∈ multibaseEncode .Base32z bytes) :
    c ≠ '/' ∧ c ≠ '?' ∧ c ≠ '#' ∧ c ≠ '.' := by
  unfold multibaseEncode at hc
  simp only [List.mem_cons] at hc
  rcases hc with rfl | hc
  · decide
  · rcases encodeBaseX_chars _ _ c hc with hc2 | rfl
    · have hall : ∀ a ∈ BASE32Z_ALPHABET, a ≠ '/' ∧ a ≠ '?' ∧ a ≠ '#' ∧ a ≠ '.' := by decide
      exact hall c hc2
    · decide

/-! ### Round-trip infrastructure for claim C1: type codes -/

theorem dataTypeFromCode_code (dt : SafeDataType) :
    dataTypeFromCode (dataTypeCode dt) = some dt := by cases dt <;> rfl

theorem dataTypeCode_lt (dt : SafeDataType) : dataTypeCode dt < 256 := by
  cases dt <;> decide

theorem contentTypeCode_ok_of_guard (ct : SafeContentType)
    (h : mediaTypeGuardOk ct = true) :
    ∃ c, contentTypeCode ct = .ok c ∧ c < 65536 ∧ contentTypeFromCode c = .ok ct := by
  cases ct with
  | Raw => exact ⟨0, rfl, by norm_num, rfl⟩
  | Wallet => exact ⟨1, rfl, by norm_num, rfl⟩
  | FilesContainer => exact ⟨2, rfl, by norm_num, rfl⟩
  | NrsMapContainer => exact ⟨3, rfl, by norm_num, rfl⟩
  | MediaType m =>
    have h2 : (mediaCodeOf m).isSome = true := h
    cases hf : MEDIA_TYPE_CODES.find? (fun p => decide (p.1 = m)) with
    | none =>
      unfold mediaCodeOf at h2
      rw [hf] at h2
      cases h2
    | some pr =>
      have hmc2 : mediaCodeOf m = some pr.2 := by
        unfold mediaCodeOf
        rw [hf]
        rfl
      have hmem := List.mem_of_find?_eq_some hf
      have hpr1 : pr.1 = m := by simpa using List.find?_some hf
      have hall : ∀ p ∈ MEDIA_TYPE_CODES, p.2 < 65536 ∧ 4 ≤ p.2 := by decide
      have hlt := (hall pr hmem).1
      have hge := (hall pr hmem).2
      have hms : mediaStrOf pr.2 = some m := by
        unfold mediaStrOf
        cases hf2 : MEDIA_TYPE_CODES.find? (fun p => decide (p.2 = pr.2)) with
        | none =>
          have hno := List.find?_eq_none.mp hf2 pr hmem
          simp at hno
        | some q =>
          have hq2 : q.2 = pr.2 := by simpa using List.find?_some hf2
          have hqmem := List.mem_of_find?_eq_some hf2
          have huniq : ∀ p ∈ MEDIA_TYPE_CODES, ∀ q ∈ MEDIA_TYPE_CODES,
              p.2 = q.2 → p.1 = q.1 := by decide
          have hq1 : q.1 = pr.1 := huniq q hqmem pr hmem hq2
          show some q.1 = some m
          rw [hq1, hpr1]
      refine ⟨pr.2, ?_, hlt, ?_⟩
      · unfold contentTypeCode
        simp only [hmc2]
      · unfold contentTypeFromCode
        rw [if_neg (by omega), if_neg (by omega), if_neg (by omega), if_neg (by omega), hms]

theorem be16_mem_lt (c b : Nat) (h : b ∈ be16 c) : b < 256 := by
  unfold be16 at h
  simp only [List.mem_cons, List.not_mem_nil, or_false] at h
  rcases h with rfl | rfl <;> omega

theorem cidVec_ok (u : SafeUrl) (code : Nat)
    (h : contentTypeCode u.content_type = .ok code) :
    cidVec u = .ok (1 :: (code / 256 % 256) :: (code % 256) ::
      dataTypeCode u.data_type ::
      (u.xorname ++ (be64 u.type_tag).drop (leadingZeros64 u.type_tag / 8))) := by
  unfold cidVec
  rw [h]
  rfl

/-! ### Round-trip infrastructure for claim C1: host strings -/

theorem startsWithStr_append (p r : Str) : startsWithStr (p ++ r) p = true := by
  induction p with
  | nil =>
    show startsWithStr r [] = true
    cases r <;> rfl
  | cons c p ih => simp [startsWithStr, ih]

theorem containsSub_append_no_dot (p tail : Str) (hp : ∀ a ∈ p, a ≠ '.') :
    containsSub (p ++ tail) ("..".toList) = containsSub tail ("..".toList) := by
  induction p with
  | nil => rfl
  | cons x xs ih =>
    have hx : x ≠ '.' := hp x (by simp)
    rw [List.cons_append]
    show (startsWithStr (x :: (xs ++ tail)) ("..".toList) ||
      containsSub (xs ++ tail) ("..".toList)) = _
    rw [show startsWithStr (x :: (xs ++ tail)) ("..".toList) = false by
      simp [startsWithStr, hx]]
    rw [Bool.false_or]
    exact ih (fun a ha => hp a (by simp [ha]))

theorem joinWith_head (c : Char) (q : Str) (rest : List Str) (hq : q ≠ []) :
    (joinWith [c] (q :: rest)).head? = q.head? := by
  cases rest with
  | nil => rfl
  | cons r rs =>
    show ((q ++ [c]) ++ joinWith [c] (r :: rs)).head? = q.head?
    cases q with
    | nil => exact absurd rfl hq
    | cons a as => rfl

theorem joinWith_no_dotdot : ∀ (pieces : List Str),
    (∀ p ∈ pieces, p ≠ [] ∧ ∀ a ∈ p, a ≠ '.') →
    containsSub (joinWith ['.'] pieces) ("..".toList) = false := by
  intro pieces
  induction pieces with
  | nil => intro h; rfl
  | cons q rest ih =>
    intro h
    cases rest with
    | nil =>
      have h2 := containsSub_append_no_dot q [] (h q (by simp)).2
      rw [List.append_nil] at h2
      rw [show joinWith ['.'] [q] = q from rfl, h2]
      rfl
    | cons r rs =>
      obtain ⟨hrne, hrd⟩ := h r (by simp)
      show containsSub ((q ++ ['.']) ++ joinWith ['.'] (r :: rs)) _ = false
      rw [List.append_assoc]
      rw [containsSub_append_no_dot q _ (h q (by simp)).2]
      have hihv := ih (fun p hp => h p (by simp [hp]))
      cases hjw : joinWith ['.'] (r :: rs) with
      | nil => decide
      | cons b bs =>
        have hb : b ≠ '.' := by
          have hh := joinWith_head '.' r rs hrne
          rw [hjw] at hh
          cases r with
          | nil => exact absurd rfl hrne
          | cons a as =>
            have hba : b = a := by
              have hba2 : some b = some a := hh
              injection hba2
            rw [hba]
            exact hrd a (by simp)
        rw [hjw] at hihv
        have hihv2 : containsSub (b :: bs) ['.', '.'] = false := hihv
        show (startsWithStr ('.' :: b :: bs) ("..".toList) ||
          containsSub (b :: bs) ("..".toList)) = false
        simp [startsWithStr, hb, hihv2]

theorem joinWith_append_last (c : Char) : ∀ (subs : List Str) (lab : Str), subs ≠ [] →
    joinWith [c] subs ++ c :: lab = joinWith [c] (subs ++ [lab]) := by
  intro subs
  induction subs with
  | nil => intro lab h; exact absurd rfl h
  | cons x xs ih =>
    intro lab h
    cases xs with
    | nil => simp [joinWith]
    | cons y ys =>
      show (x ++ [c] ++ joinWith [c] (y :: ys)) ++ c :: lab =
        x ++ [c] ++ joinWith [c] ((y :: ys) ++ [lab])
      rw [← ih lab (by simp)]
      simp [List.append_assoc]

/-! ### Round-trip infrastructure for claim C1: parsing a built URL -/

theorem takeWhile_eq_nil {p : Char → Bool} (l : Str)
    (h : l = [] ∨ ∃ c r2, l = c :: r2 ∧ p c = false) : l.takeWhile p = [] := by
  rcases h with rfl | ⟨c, r2, rfl, hc⟩
  · rfl
  · rw [List.takeWhile_cons]
    simp [hc]

theorem dropWhile_eq_self {p : Char → Bool} (l : Str)
    (h : l = [] ∨ ∃ c r2, l = c :: r2 ∧ p c = false) : l.dropWhile p = l := by
  rcases h with rfl | ⟨c, r2, rfl, hc⟩
  · rfl
  · rw [List.dropWhile_cons]
    simp [hc]

theorem tail_shape (path q' f' query frag : Str)
    (hpath : path = [] ∨ path.head? = some '/')
    (hq' : (q' = [] ∧ query = []) ∨ q' = '?' :: query)
    (hf' : (f' = [] ∧ frag = []) ∨ f' = '#' :: frag) :
    path ++ (q' ++ f') = [] ∨
      ∃ c r2, path ++ (q' ++ f') = c :: r2 ∧ (c = '/' ∨ c = '?' ∨ c = '#') := by
  rcases hpath with rfl | hph
  · rcases hq' with ⟨rfl, rfl⟩ | rfl
    · rcases hf' with ⟨rfl, rfl⟩ | rfl
      · left; rfl
      · right; exact ⟨'#', frag, rfl, Or.inr (Or.inr rfl)⟩
    · right; exact ⟨'?', query ++ f', rfl, Or.inr (Or.inl rfl)⟩
  · right
    cases path with
    | nil => cases hph
    | cons c p2 =>
      have hc : c = '/' := by
        rw [List.head?_cons] at hph
        injection hph
      exact ⟨c, p2 ++ (q' ++ f'), rfl, Or.inl hc⟩

theorem comp_path (path tail2 : Str)
    (hpath : path = [] ∨ path.head? = some '/')
    (hpath_chars : ∀ c ∈ path, c ≠ '?' ∧ c ≠ '#')
    (htail2 : tail2 = [] ∨ ∃ c r2, tail2 = c :: r2 ∧ (c = '?' ∨ c = '#')) :
    (if (path ++ tail2).head? = some '/'
      then (path ++ tail2).takeWhile (fun c => c ≠ '?' ∧ c ≠ '#') else []) = path ∧
    (if (path ++ tail2).head? = some '/'
      then (path ++ tail2).dropWhile (fun c => c ≠ '?' ∧ c ≠ '#')
      else path ++ tail2) = tail2 := by
  have htail2b : tail2 = [] ∨ ∃ c r2, tail2 = c :: r2 ∧
      (fun c => decide (¬c = '?' ∧ ¬c = '#')) c = false := by
    rcases htail2 with rfl | ⟨c, r2, he, hc⟩
    · exact Or.inl rfl
    · refine Or.inr ⟨c, r2, he, ?_⟩
      rcases hc with rfl | rfl <;> decide
  rcases hpath with rfl | hph
  · rcases htail2 with rfl | ⟨c, r2, rfl, hc⟩
    · exact ⟨rfl, rfl⟩
    · have hne : ¬((([] : Str) ++ c :: r2).head? = some '/') := by
        rw [List.nil_append, List.head?_cons]
        intro hcc
        injection hcc with hcc
        rcases hc with rfl | rfl <;> exact absurd hcc (by decide)
      exact ⟨by rw [if_neg hne], by rw [if_neg hne, List.nil_append]⟩
  · obtain ⟨cp, ps, rfl⟩ : ∃ cp ps, path = cp :: ps := by
      cases path with
      | nil => cases hph
      | cons cp ps => exact ⟨cp, ps, rfl⟩
    have hcp : cp = '/' := by
      rw [List.head?_cons] at hph
      injection hph
    subst hcp
    have hcond : ((('/' : Char) :: ps ++ tail2).head? = some '/') := by
      rw [List.cons_append, List.head?_cons]
    have hall : ∀ c ∈ ('/' : Char) :: ps,
        (fun c => decide (¬c = '?' ∧ ¬c = '#')) c = true := by
      intro c hc
      simpa using hpath_chars c hc
    constructor
    · rw [if_pos hcond, takeWhile_append_all _ _ hall, takeWhile_eq_nil _ htail2b,
        List.append_nil]
    · rw [if_pos hcond, dropWhile_append_all _ _ hall, dropWhile_eq_self _ htail2b]

theorem comp_query (q' f' query frag : Str)
    (hq' : (q' = [] ∧ query = []) ∨ q' = '?' :: query)
    (hf' : (f' = [] ∧ frag = []) ∨ f' = '#' :: frag)
    (hq : ∀ c ∈ query, c ≠ '#') :
    (if (q' ++ f').head? = some '?'
      then ((q' ++ f').drop 1).takeWhile (· ≠ '#') else []) = query ∧
    (if (q' ++ f').head? = some '?'
      then ((q' ++ f').drop 1).dropWhile (· ≠ '#') else q' ++ f') = f' := by
  have hf'b : f' = [] ∨ ∃ c r2, f' = c :: r2 ∧
      (fun c => decide (¬c = '#')) c = false := by
    rcases hf' with ⟨rfl, rfl⟩ | rfl
    · exact Or.inl rfl
    · exact Or.inr ⟨'#', frag, rfl, by decide⟩
  have hallq : ∀ c ∈ query, (fun c => decide (¬c = '#')) c = true := by
    intro c hc
    simpa using hq c hc
  rcases hq' with ⟨rfl, rfl⟩ | rfl
  · rcases hf' with ⟨rfl, rfl⟩ | rfl
    · exact ⟨rfl, rfl⟩
    · have hne : ¬(((([] : Str) ++ '#' :: frag)).head? = some '?') := by
        rw [List.nil_append, List.head?_cons]
        intro hcc
        injection hcc with hcc
        exact absurd hcc (by decide)
      exact ⟨by rw [if_neg hne], by rw [if_neg hne, List.nil_append]⟩
  · have hcond : (((('?' : Char) :: query) ++ f').head? = some '?') := by
      rw [List.cons_append, List.head?_cons]
    have hdrop : ((('?' : Char) :: query) ++ f').drop 1 = query ++ f' := by
      rw [List.cons_append]
      rfl
    constructor
    · rw [if_pos hcond, hdrop, takeWhile_append_all _ _ hallq, takeWhile_eq_nil _ hf'b,
        List.append_nil]
    · rw [if_pos hcond, hdrop, dropWhile_append_all _ _ hallq, dropWhile_eq_self _ hf'b]

theorem comp_frag (f' frag : Str)
    (hf' : (f' = [] ∧ frag = []) ∨ f' = '#' :: frag) :
    (if f'.head? = some '#' then f'.drop 1 else []) = frag := by
  rcases hf' with ⟨rfl, rfl⟩ | rfl
  · rfl
  · rw [if_pos (by rw [List.head?_cons])]
    rfl

theorem parseParts_build (host path q' f' query frag : Str)
    (hhost_ne : host ≠ [])
    (hhost_chars : ∀ c ∈ host, c ≠ '/' ∧ c ≠ '?' ∧ c ≠ '#')
    (hhost_dots : containsSub host ("..".toList) = false)
    (hpath : path = [] ∨ path.head? = some '/')
    (hpath_chars : ∀ c ∈ path, c ≠ '?' ∧ c ≠ '#')
    (hpath_slash : containsSub path ("//".toList) = false)
    (hq' : (q' = [] ∧ query = []) ∨ q' = '?' :: query)
    (hf' : (f' = [] ∧ frag = []) ∨ f' = '#' :: frag)
    (hq : ∀ c ∈ query, c ≠ '#') :
    parseParts ("safe://".toList ++ (host ++ (path ++ (q' ++ f')))) =
      .ok { scheme := "safe".toList, host := host,
            sub_names := (splitOnChar '.' host).dropLast,
            tld := (splitOnChar '.' host).getLastD [],
            path := path, query_string := query, fragment := frag } := by
  have htail := tail_shape path q' f' query frag hpath hq' hf'
  have htailb : path ++ (q' ++ f') = [] ∨ ∃ c r2, path ++ (q' ++ f') = c :: r2 ∧
      (fun c => decide (¬c = '/' ∧ ¬c = '?' ∧ ¬c = '#')) c = false := by
    rcases htail with he | ⟨c, r2, he, hc⟩
    · exact Or.inl he
    · refine Or.inr ⟨c, r2, he, ?_⟩
      rcases hc with rfl | rfl | rfl <;> decide
  have htail2 : q' ++ f' = [] ∨ ∃ c r2, q' ++ f' = c :: r2 ∧ (c = '?' ∨ c = '#') := by
    rcases hq' with ⟨rfl, rfl⟩ | rfl
    · rcases hf' with ⟨rfl, rfl⟩ | rfl
      · exact Or.inl rfl
      · exact Or.inr ⟨'#', frag, rfl, Or.inr rfl⟩
    · exact Or.inr ⟨'?', query ++ f', rfl, Or.inl rfl⟩
  have hcpath := comp_path path (q' ++ f') hpath hpath_chars htail2
  have hcquery := comp_query q' f' query frag hq' hf' hq
  have hcfrag := comp_frag f' frag hf'
  have hallh : ∀ c ∈ host,
      (fun c => decide (¬c = '/' ∧ ¬c = '?' ∧ ¬c = '#')) c = true := by
    intro c hc
    simpa using hhost_chars c hc
  unfold parseParts
  rw [startsWithStr_append, if_neg (by simp)]
  simp only []
  rw [List.drop_left' (show ("safe://".toList).length = 7 from rfl)]
  rw [takeWhile_append_all host _ hallh, dropWhile_append_all host _ hallh]
  rw [takeWhile_eq_nil _ htailb, dropWhile_eq_self _ htailb, List.append_nil]
  rw [if_neg hhost_ne, if_neg (by simpa using hhost_dots)]
  rw [hcpath.1, hcpath.2, hcquery.1, hcquery.2, hcfrag]
  rw [if_neg (by simpa using hpath_slash)]

/-! ### Round-trip infrastructure for claim C1: rebuilding the value -/

theorem vQueryOk_of_sync (qs : Str) (cv : Option Nat)
    (hv1 : cv = (query_key_last_internal qs URL_VERSION_QUERY_NAME).bind parseU64?)
    (hv2 : cv = none ↔ query_key_last_internal qs URL_VERSION_QUERY_NAME = none) :
    vQueryOk qs = true := by
  unfold vQueryOk
  cases hlast : query_key_last_internal qs URL_VERSION_QUERY_NAME with
  | none => rfl
  | some s =>
    show (parseU64? s).isSome = true
    rw [hlast] at hv1
    have hv1c : cv = parseU64? s := hv1
    cases hps : parseU64? s with
    | some n => rfl
    | none =>
      rw [hps] at hv1c
      rw [hv2.mp hv1c] at hlast
      cases hlast

theorem set_query_string_pair (u : SafeUrl) (q : Str) (hvq : vQueryOk q = true) :
    set_query_string u q =
      ({ u with
          query_string := q,
          content_version :=
            (query_key_last_internal q URL_VERSION_QUERY_NAME).bind parseU64? },
       none) := by
  have hvq2 := hvq
  unfold vQueryOk at hvq2
  unfold set_query_string
  cases hlast : query_key_last_internal q URL_VERSION_QUERY_NAME with
  | none => rfl
  | some s =>
    rw [hlast] at hvq2
    have hvq3 : (parseU64? s).isSome = true := hvq2
    show (match parseU64? s with
        | some n => ({ u with content_version := some n, query_string := q }, none)
        | none => (u, some (Error.InvalidInput (versionParseMsg s)))) =
      ({ u with query_string := q, content_version := parseU64? s }, none)
    cases hps : parseU64? s with
    | none =>
      rw [hps] at hvq3
      cases hvq3
    | some n => rfl

theorem safeUrlBuild_rebuild (x : SafeUrl)
    (henc : x.encoding_version = 1)
    (hpathn : normalizePath x.path false = x.path)
    (hvs : versionSync x) :
    safeUrlBuild x.xorname x.nrs_host x.type_tag x.data_type x.content_type (some x.path)
      x.sub_names (some x.query_string) (some x.fragment) none = .ok x := by
  obtain ⟨hv1, hv2⟩ := hvs
  obtain ⟨ev, xn, nh, tt, dt, ct, p, subs, qs, fr, cv⟩ := x
  have henc2 : ev = 1 := henc
  subst henc2
  have hp2 : normalizePath p false = p := hpathn
  have hv1b : cv = (query_key_last_internal qs URL_VERSION_QUERY_NAME).bind parseU64? := hv1
  have hv2b : cv = none ↔ query_key_last_internal qs URL_VERSION_QUERY_NAME = none := hv2
  have hvq := vQueryOk_of_sync qs cv hv1b hv2b
  unfold safeUrlBuild
  simp only [set_path_internal, Option.getD_some]
  rw [hp2, set_query_string_pair _ _ hvq]
  rw [← hv1b]

theorem safeUrlNew_rebuild_xor (x : SafeUrl)
    (henc : x.encoding_version = 1) (hnrs : x.nrs_host = [])
    (hmedia : mediaTypeGuardOk x.content_type = true)
    (hsubs : ∀ s ∈ x.sub_names, s ≠ [])
    (hpathn : normalizePath x.path false = x.path)
    (hvs : versionSync x) :
    safeUrlNew x.xorname none x.type_tag x.data_type x.content_type (some x.path)
      (some x.sub_names) (some x.query_string) (some x.fragment) none = .ok x := by
  unfold safeUrlNew
  rw [if_neg (by simp [hmedia])]
  simp only [Option.getD_some]
  rw [if_neg (by
    rw [List.any_eq_true]
    rintro ⟨s, hs, hsnil⟩
    exact hsubs s hs (by simpa using hsnil))]
  have hb := safeUrlBuild_rebuild x henc hpathn hvs
  rw [hnrs] at hb
  exact hb

theorem safeUrlNew_rebuild_nrs (x : SafeUrl) (parts2 : SafeUrlParts)
    (subsArg : Option (List Str))
    (henc : x.encoding_version = 1)
    (hnh : x.nrs_host ≠ [])
    (hmedia : mediaTypeGuardOk x.content_type = true)
    (hparse : parseParts ("safe://".toList ++ x.nrs_host) = .ok parts2)
    (hhash : xorname_from_nrs_string parts2.tld = x.xorname)
    (hsubs : parts2.sub_names = x.sub_names)
    (hpathn : normalizePath x.path false = x.path)
    (hvs : versionSync x) :
    safeUrlNew x.xorname (some x.nrs_host) x.type_tag x.data_type x.content_type
      (some x.path) subsArg (some x.query_string) (some x.fragment) none = .ok x := by
  unfold safeUrlNew
  rw [if_neg (by simp [hmedia])]
  simp only []
  rw [if_neg hnh, hparse]
  simp only []
  rw [if_neg (by simp [hhash]), hsubs]
  exact safeUrlBuild_rebuild x henc hpathn hvs

/-! ### Round-trip infrastructure for claim C1: serialised shape -/

theorem append5 (s h p q f : Str) :
    s ++ h ++ p ++ q ++ f = s ++ (h ++ (p ++ (q ++ f))) := by
  simp [List.append_assoc]

theorem hostStr_eq (subs : List Str) (label : Str) :
    (if subs ≠ [] then joinWith ['.'] subs ++ ['.'] else []) ++ label =
      joinWith ['.'] (subs ++ [label]) := by
  by_cases h : subs = []
  · subst h
    simp [joinWith]
  · rw [if_pos h, List.append_assoc]
    exact joinWith_append_last '.' subs label h

theorem qsep_shape (u : SafeUrl) :
    (query_string_with_separator u = [] ∧ u.query_string = []) ∨
      query_string_with_separator u = '?' :: u.query_string := by
  unfold query_string_with_separator
  by_cases h : u.query_string = []
  · exact Or.inl ⟨by rw [if_pos h], h⟩
  · exact Or.inr (by rw [if_neg h])

theorem fsep_shape (u : SafeUrl) :
    (fragment_with_separator u = [] ∧ u.fragment = []) ∨
      fragment_with_separator u = '#' :: u.fragment := by
  unfold fragment_with_separator
  by_cases h : u.fragment = []
  · exact Or.inl ⟨by rw [if_pos h], h⟩
  · exact Or.inr (by rw [if_neg h])

theorem joinWith_mem (c : Char) (sep : Str) (pieces : List Str)
    (h : c ∈ joinWith sep pieces) : c ∈ sep ∨ ∃ p ∈ pieces, c ∈ p := by
  induction pieces with
  | nil => cases h
  | cons p ps ih =>
    cases ps with
    | nil => exact Or.inr ⟨p, by simp, h⟩
    | cons q qs =>
      rw [show joinWith sep (p :: q :: qs) = p ++ sep ++ joinWith sep (q :: qs) from rfl] at h
      rw [List.mem_append, List.mem_append] at h
      rcases h with (hc | hc) | hc
      · exact Or.inr ⟨p, by simp, hc⟩
      · exact Or.inl hc
      · rcases ih hc with hs | ⟨r, hr, hcr⟩
        · exact Or.inl hs
        · exact Or.inr ⟨r, by simp [hr], hcr⟩

theorem to_xorurl_string_eq (x : SafeUrl) (code : Nat)
    (hct : contentTypeCode x.content_type = .ok code) :
    to_xorurl_string x = "safe://".toList ++
      (joinWith ['.'] (x.sub_names ++ [multibaseEncode .Base32z
          (1 :: (code / 256 % 256) :: (code % 256) :: dataTypeCode x.data_type ::
            (x.xorname ++ (be64 x.type_tag).drop (leadingZeros64 x.type_tag / 8)))]) ++
        (x.path ++ (query_string_with_separator x ++ fragment_with_separator x))) := by
  unfold to_xorurl_string to_base host_to_base
  rw [show DEFAULT_XORURL_BASE = XorUrlBase.Base32z from rfl]
  rw [cidVec_ok x code hct]
  simp only []
  rw [append5, hostStr_eq]

/-! ### Round-trip for claim C1: resource form -/

theorem from_xorurl_roundtrip (x : SafeUrl)
    (henc : x.encoding_version = 1)
    (hnrs : x.nrs_host = [])
    (hxlen : x.xorname.length = 32)
    (hxb : ∀ b ∈ x.xorname, b < 256)
    (htag : x.type_tag < 2 ^ 64)
    (hmedia : mediaTypeGuardOk x.content_type = true)
    (hsubs : ∀ s ∈ x.sub_names, s ≠ [] ∧ ∀ a ∈ s, a ≠ '/' ∧ a ≠ '?' ∧ a ≠ '#' ∧ a ≠ '.')
    (hpathn : normalizePath x.path false = x.path)
    (hpath_chars : ∀ c ∈ x.path, c ≠ '?' ∧ c ≠ '#')
    (hpath_slash : containsSub x.path ("//".toList) = false)
    (hqc : ∀ c ∈ x.query_string, c ≠ '#')
    (hvs : versionSync x) :
    from_xorurl (to_xorurl_string x) = .ok x := by
  obtain ⟨code, hcode, hclt, hcfrom⟩ := contentTypeCode_ok_of_guard x.content_type hmedia
  rw [to_xorurl_string_eq x code hcode]
  have hlab_ne : (multibaseEncode .Base32z (1 :: (code / 256 % 256) :: (code % 256) :: dataTypeCode x.data_type ::
      (x.xorname ++ (be64 x.type_tag).drop (leadingZeros64 x.type_tag / 8)))) ≠ [] := by
    unfold multibaseEncode
    simp
  have hpieces : ∀ p ∈ x.sub_names ++ [multibaseEncode .Base32z (1 :: (code / 256 % 256) :: (code % 256) :: dataTypeCode x.data_type ::
      (x.xorname ++ (be64 x.type_tag).drop (leadingZeros64 x.type_tag / 8)))], p ≠ [] ∧ ∀ a ∈ p, a ≠ '.' := by
    intro p hp
    rw [List.mem_append] at hp
    rcases hp with hp | hp
    · obtain ⟨h1, h2⟩ := hsubs p hp
      exact ⟨h1, fun a ha => (h2 a ha).2.2.2⟩
    · rw [List.mem_singleton] at hp
      subst hp
      refine ⟨hlab_ne, ?_⟩
      intro a ha
      exact (b32z_label_safe _ a ha).2.2.2
  have hsplit : splitOnChar '.' (joinWith ['.'] (x.sub_names ++ [multibaseEncode .Base32z (1 :: (code / 256 % 256) :: (code % 256) :: dataTypeCode x.data_type ::
      (x.xorname ++ (be64 x.type_tag).drop (leadingZeros64 x.type_tag / 8)))])) =
      x.sub_names ++ [multibaseEncode .Base32z (1 :: (code / 256 % 256) :: (code % 256) :: dataTypeCode x.data_type ::
      (x.xorname ++ (be64 x.type_tag).drop (leadingZeros64 x.type_tag / 8)))] :=
    splitOnChar_joinWith '.' _ (by simp) (fun p hp a ha => (hpieces p hp).2 a ha)
  have hhost_ne : joinWith ['.'] (x.sub_names ++ [multibaseEncode .Base32z (1 :: (code / 256 % 256) :: (code % 256) :: dataTypeCode x.data_type ::
      (x.xorname ++ (be64 x.type_tag).drop (leadingZeros64 x.type_tag / 8)))]) ≠ [] := by
    intro h0
    have h1 := hsplit
    rw [h0] at h1
    have h2 : (([] : Str) :: []) = x.sub_names ++ [multibaseEncode .Base32z (1 :: (code / 256 % 256) :: (code % 256) :: dataTypeCode x.data_type ::
      (x.xorname ++ (be64 x.type_tag).drop (leadingZeros64 x.type_tag / 8)))] := h1
    have h3 := congrArg List.getLast? h2
    rw [List.getLast?_concat] at h3
    have h4 : some ([] : Str) = some (multibaseEncode .Base32z (1 :: (code / 256 % 256) :: (code % 256) :: dataTypeCode x.data_type ::
      (x.xorname ++ (be64 x.type_tag).drop (leadingZeros64 x.type_tag / 8)))) := h3
    injection h4 with h4
    exact hlab_ne h4.symm
  have hhost_chars : ∀ c ∈ joinWith ['.'] (x.sub_names ++ [multibaseEncode .Base32z (1 :: (code / 256 % 256) :: (code % 256) :: dataTypeCode x.data_type ::
      (x.xorname ++ (be64 x.type_tag).drop (leadingZeros64 x.type_tag / 8)))]),
      c ≠ '/' ∧ c ≠ '?' ∧ c ≠ '#' := by
    intro c hc
    rcases joinWith_mem c ['.'] _ hc with hc2 | ⟨p, hp, hcp⟩
    · rw [List.mem_singleton] at hc2
      subst hc2
      exact ⟨by decide, by decide, by decide⟩
    · rw [List.mem_append] at hp
      rcases hp with hp | hp
      · obtain ⟨-, h2⟩ := hsubs p hp
        obtain ⟨a1, a2, a3, -⟩ := h2 c hcp
        exact ⟨a1, a2, a3⟩
      · rw [List.mem_singleton] at hp
        subst hp
        obtain ⟨a1, a2, a3, -⟩ := b32z_label_safe _ c hcp
        exact ⟨a1, a2, a3⟩
  have hhost_dots := joinWith_no_dotdot (x.sub_names ++ [multibaseEncode .Base32z (1 :: (code / 256 % 256) :: (code % 256) :: dataTypeCode x.data_type ::
      (x.xorname ++ (be64 x.type_tag).drop (leadingZeros64 x.type_tag / 8)))]) hpieces
  have hpath_shape : x.path = [] ∨ x.path.head? = some '/' := by
    rw [← hpathn]
    exact normalizePath_shape x.path false
  have hparse := parseParts_build (joinWith ['.'] (x.sub_names ++ [multibaseEncode .Base32z (1 :: (code / 256 % 256) :: (code % 256) :: dataTypeCode x.data_type ::
      (x.xorname ++ (be64 x.type_tag).drop (leadingZeros64 x.type_tag / 8)))])) x.path
      (query_string_with_separator x) (fragment_with_separator x)
      x.query_string x.fragment hhost_ne hhost_chars hhost_dots hpath_shape hpath_chars
      hpath_slash (qsep_shape x) (fsep_shape x) hqc
  rw [hsplit, List.dropLast_concat, List.getLastD_concat] at hparse
  have hbmem : ∀ b ∈ (1 :: (code / 256 % 256) :: (code % 256) :: dataTypeCode x.data_type ::
      (x.xorname ++ (be64 x.type_tag).drop (leadingZeros64 x.type_tag / 8))), b < 256 := by
    intro b hb
    rw [List.mem_cons, List.mem_cons, List.mem_cons, List.mem_cons, List.mem_append] at hb
    rcases hb with rfl | rfl | rfl | rfl | hb | hb
    · omega
    · omega
    · omega
    · exact dataTypeCode_lt x.data_type
    · exact hxb b hb
    · exact be64_mem_lt x.type_tag b (List.drop_subset _ _ hb)
  have hdec := multibaseDecode_encode_b32z (1 :: (code / 256 % 256) :: (code % 256) :: dataTypeCode x.data_type ::
      (x.xorname ++ (be64 x.type_tag).drop (leadingZeros64 x.type_tag / 8))) hbmem rfl
  rw [from_xorurl_decode _ _ (1 :: (code / 256 % 256) :: (code % 256) :: dataTypeCode x.data_type ::
      (x.xorname ++ (be64 x.type_tag).drop (leadingZeros64 x.type_tag / 8))) hparse hdec]
  have hlen : (((1 :: (code / 256 % 256) :: (code % 256) :: dataTypeCode x.data_type ::
      (x.xorname ++ (be64 x.type_tag).drop (leadingZeros64 x.type_tag / 8)))) : List Nat).length = 4 + (x.xorname.length +
      ((be64 x.type_tag).drop (leadingZeros64 x.type_tag / 8)).length) := by
    simp [List.length_append]
    omega
  rw [tag_bytes_length, hxlen] at hlen
  rw [xorurlDecodeBytes_valid (1 :: (code / 256 % 256) :: (code % 256) :: dataTypeCode x.data_type ::
      (x.xorname ++ (be64 x.type_tag).drop (leadingZeros64 x.type_tag / 8))) _ (by omega) (by omega) rfl
    x.content_type x.data_type ?hctc ?hdtc]
  case hctc =>
    rw [show (((1 :: (code / 256 % 256) :: (code % 256) :: dataTypeCode x.data_type ::
      (x.xorname ++ (be64 x.type_tag).drop (leadingZeros64 x.type_tag / 8)))) : List Nat).getD 1 0 = code / 256 % 256 from rfl,
      show (((1 :: (code / 256 % 256) :: (code % 256) :: dataTypeCode x.data_type ::
      (x.xorname ++ (be64 x.type_tag).drop (leadingZeros64 x.type_tag / 8)))) : List Nat).getD 2 0 = code % 256 from rfl,
      show 256 * (code / 256 % 256) + code % 256 = code from by omega]
    exact hcfrom
  case hdtc =>
    rw [show (((1 :: (code / 256 % 256) :: (code % 256) :: dataTypeCode x.data_type ::
      (x.xorname ++ (be64 x.type_tag).drop (leadingZeros64 x.type_tag / 8)))) : List Nat).getD 3 0 = dataTypeCode x.data_type from rfl]
    exact dataTypeFromCode_code x.data_type
  rw [show List.drop 36 ((1 :: (code / 256 % 256) :: (code % 256) :: dataTypeCode x.data_type ::
      (x.xorname ++ (be64 x.type_tag).drop (leadingZeros64 x.type_tag / 8)))) = List.drop 32 (List.drop 4 ((1 :: (code / 256 % 256) :: (code % 256) :: dataTypeCode x.data_type ::
      (x.xorname ++ (be64 x.type_tag).drop (leadingZeros64 x.type_tag / 8))))) from by
    rw [List.drop_drop]]
  rw [show List.drop 4 ((1 :: (code / 256 % 256) :: (code % 256) :: dataTypeCode x.data_type ::
      (x.xorname ++ (be64 x.type_tag).drop (leadingZeros64 x.type_tag / 8)))) =
    x.xorname ++ (be64 x.type_tag).drop (leadingZeros64 x.type_tag / 8) from rfl]
  rw [List.take_left' hxlen, List.drop_left' hxlen]
  rw [tag_roundtrip x.type_tag htag]
  exact safeUrlNew_rebuild_xor x henc hnrs hmedia (fun s hs => (hsubs s hs).1) hpathn hvs

/-! ### Round-trip for claim C1: alias form -/

theorem from_nrsurl_roundtrip (x : SafeUrl)
    (henc : x.encoding_version = 1)
    (hnh : x.nrs_host ≠ [])
    (hhost_chars : ∀ c ∈ x.nrs_host, c ≠ '/' ∧ c ≠ '?' ∧ c ≠ '#')
    (hhost_dots : containsSub x.nrs_host ("..".toList) = false)
    (hsubs : (splitOnChar '.' x.nrs_host).dropLast = x.sub_names)
    (hhash : xorname_from_nrs_string ((splitOnChar '.' x.nrs_host).getLastD []) = x.xorname)
    (htt : x.type_tag = NRS_MAP_TYPE_TAG)
    (hdt : x.data_type = .PublishedSeqAppendOnlyData)
    (hct : x.content_type = .NrsMapContainer)
    (hpathn : normalizePath x.path false = x.path)
    (hpath_chars : ∀ c ∈ x.path, c ≠ '?' ∧ c ≠ '#')
    (hpath_slash : containsSub x.path ("//".toList) = false)
    (hqc : ∀ c ∈ x.query_string, c ≠ '#')
    (hvs : versionSync x) :
    from_nrsurl ((to_nrsurl_string x).getD []) = .ok x := by
  have hser : (to_nrsurl_string x).getD [] =
      "safe://".toList ++ (x.nrs_host ++ (x.path ++
        (query_string_with_separator x ++ fragment_with_separator x))) := by
    unfold to_nrsurl_string
    rw [if_neg (by simp [is_nrs, hnh])]
    rw [Option.getD_some, append5]
  rw [hser]
  have hpath_shape : x.path = [] ∨ x.path.head? = some '/' := by
    rw [← hpathn]
    exact normalizePath_shape x.path false
  have hparse := parseParts_build x.nrs_host x.path
      (query_string_with_separator x) (fragment_with_separator x)
      x.query_string x.fragment hnh hhost_chars hhost_dots hpath_shape hpath_chars
      hpath_slash (qsep_shape x) (fsep_shape x) hqc
  unfold from_nrsurl
  rw [hparse]
  simp only []
  rw [hhash, ← htt, ← hdt, ← hct, hsubs]
  have hparse2 := parseParts_build x.nrs_host [] [] [] [] [] hnh hhost_chars hhost_dots
    (Or.inl rfl) (by intro c hc; cases hc) rfl
    (Or.inl ⟨rfl, rfl⟩) (Or.inl ⟨rfl, rfl⟩) (by intro c hc; cases hc)
  simp only [List.append_nil, List.nil_append] at hparse2
  exact safeUrlNew_rebuild_nrs x _ (some x.sub_names) henc hnh
    (by simp [hct, mediaTypeGuardOk]) hparse2 hhash hsubs hpathn hvs

/-- Claim C1 counterexample: the alias-form SafeUrl `xColl` is a valid field
tuple (it is exactly what `new` constructs for its alias host, with a
consistent hash and NRS constants), yet parsing its canonical serialisation
with `from_url` does not return it: the alias host is itself a decodable
base32z label, so the xorurl branch wins. -/
theorem C1_counterexample :
    safeUrlNew (xorname_from_nrs_string hColl) (some hColl) NRS_MAP_TYPE_TAG
        .PublishedSeqAppendOnlyData .NrsMapContainer none none none none none = .ok xColl ∧
    from_url (safeUrlToString xColl) ≠ .ok xColl := by
  constructor
  · decide
  · decide

/-- Claim C1 (amended): for resource-form values (empty nrs_host) with valid
fields — 32 xorname bytes below 256, tag below 2^64, supported media type,
non-empty dot-free sub names, component-safe path/query character sets, a
normalisation-stable path, and content_version in sync with the query — the
canonical serialisation parses back to the same SafeUrl with `from_url`.  For
alias-form values the same holds only under the additional conditions the code
imposes: the NRS constants (type tag, data type, content type) forced by
`from_nrsurl`, a host whose labels match the stored sub names, a hash-
consistent xorname, and — because `from_url` tries the xorurl interpretation
first — the serialisation must fail to decode as a xorurl. -/
theorem C1_roundtrip (x : SafeUrl) :
    ((x.encoding_version = 1) → (x.nrs_host = []) → (x.xorname.length = 32) →
     (∀ b ∈ x.xorname, b < 256) → (x.type_tag < 2 ^ 64) →
     (mediaTypeGuardOk x.content_type = true) →
     (∀ s ∈ x.sub_names, s ≠ [] ∧ ∀ a ∈ s, a ≠ '/' ∧ a ≠ '?' ∧ a ≠ '#' ∧ a ≠ '.') →
     (normalizePath x.path false = x.path) →
     (∀ c ∈ x.path, c ≠ '?' ∧ c ≠ '#') →
     (containsSub x.path ("//".toList) = false) →
     (∀ c ∈ x.query_string, c ≠ '#') →
     versionSync x →
     from_url (safeUrlToString x) = .ok x) ∧
    ((x.encoding_version = 1) → (x.nrs_host ≠ []) →
     (∀ c ∈ x.nrs_host, c ≠ '/' ∧ c ≠ '?' ∧ c ≠ '#') →
     (containsSub x.nrs_host ("..".toList) = false) →
     ((splitOnChar '.' x.nrs_host).dropLast = x.sub_names) →
     (xorname_from_nrs_string ((splitOnChar '.' x.nrs_host).getLastD []) = x.xorname) →
     (x.type_tag = NRS_MAP_TYPE_TAG) →
     (x.data_type = .PublishedSeqAppendOnlyData) →
     (x.content_type = .NrsMapContainer) →
     (normalizePath x.path false = x.path) →
     (∀ c ∈ x.path, c ≠ '?' ∧ c ≠ '#') →
     (containsSub x.path ("//".toList) = false) →
     (∀ c ∈ x.query_string, c ≠ '#') →
     versionSync x →
     ((from_xorurl (safeUrlToString x)).isOk = false) →
     from_url (safeUrlToString x) = .ok x) := by
  constructor
  · intro henc hnrs hxlen hxb htag hmedia hsubs hpathn hpc hps hqc hvs
    have hx := from_xorurl_roundtrip x henc hnrs hxlen hxb htag hmedia hsubs hpathn
      hpc hps hqc hvs
    have hser : safeUrlToString x = to_xorurl_string x := by
      unfold safeUrlToString
      rw [if_neg (by simp [is_nrs, hnrs])]
    rw [hser]
    unfold from_url
    rw [hx]
  · intro henc hnh hhc hhd hsub2 hhash htt hdt hct hpathn hpc hps hqc hvs hxorfail
    have hser : safeUrlToString x = (to_nrsurl_string x).getD [] := by
      unfold safeUrlToString
      rw [if_pos (by simp [is_nrs, hnh])]
    have hn := from_nrsurl_roundtrip x henc hnh hhc hhd hsub2 hhash htt hdt hct hpathn
      hpc hps hqc hvs
    rw [hser] at hxorfail ⊢
    unfold from_url
    cases hfx : from_xorurl ((to_nrsurl_string x).getD []) with
    | ok v =>
      rw [hfx] at hxorfail
      simp [Except.isOk, Except.toBool] at hxorfail
    | error e =>
      simp only []
      exact hn

/-- Witness for C1: a concrete resource-form value and a concrete alias-form
value that both round-trip. -/
theorem C1_roundtrip_witness :
    from_url (safeUrlToString uEmptyQ) = .ok uEmptyQ ∧
    from_url (safeUrlToString x9w) = .ok x9w :=
  ⟨(C1_roundtrip uEmptyQ).1 (by decide) (by decide) (by decide) (by decide) (by decide)
      (by decide) (by decide) (by decide) (by decide) (by decide) (by decide) (by decide),
   (C1_roundtrip x9w).2 (by decide) (by decide) (by decide) (by decide) (by decide)
      (by decide) (by decide) (by decide) (by decide) (by decide) (by decide) (by decide)
      (by decide) (by decide) (by decide)⟩
